import Mathlib

/-!
# merger.cpp: concatenating remuxer

A shallow embedding of `main` of `src/merger.cpp`.  The program stores the
`argc - 2` input paths in tables of `MAX_INPUT_NUM` slots, opens the inputs,
builds the output streams from input 0, writes the header, copies every packet
of every input while replacing its timestamps by the value of one of two
running `uint32_t` counters, writes the trailer and derives the exit code from
the last value of `ret`.

The media library (libavformat / libavutil) is the environment.  Every result
it hands back to `main` is a field of `World`, so a theorem quantified over
`World` covers every behaviour of the library.  The calls `main` makes are
recorded, in order, as a list of `Event`.

The source checks neither `infile_num` against `MAX_INPUT_NUM` nor
`pkt.stream_index` against the number of streams.  An access outside a table
ends the run where it happens: the trace stops there and `main` returns no
value (`Outcome.exit = none`).
-/

namespace Merger

/-! ## Constants -/

/-- Line 51: `#define MAX_INPUT_NUM 10`. -/
def MAX_INPUT_NUM : Nat := 10

/-- Value of `AVERROR_EOF` in libavutil/error.h: `FFERRTAG('E','O','F',' ')`. -/
def AVERROR_EOF : Int := -541478725

/-- Value of `AVERROR_UNKNOWN` in libavutil/error.h: `FFERRTAG(0xF8,'U','N','K')`. -/
def AVERROR_UNKNOWN : Int := -1263425016

/-- Number of values of a `uint32_t`. -/
def UINT32_MOD : Nat := 4294967296

/-- Smallest `int64_t`, also the value of `AV_NOPTS_VALUE`. -/
def INT64_MIN : Int := -9223372036854775808

/-- Largest `int64_t`. -/
def INT64_MAX : Int := 9223372036854775807

/-! ## Data -/

/-- The `enum AVMediaType` read at line 171. -/
inductive AVMediaType where
  | UNKNOWN
  | VIDEO
  | AUDIO
  | DATA
  | SUBTITLE
  | ATTACHMENT
  deriving DecidableEq, Repr

/-- An `AVRational` time base `num / den`. -/
structure AVRational where
  num : Int
  den : Int
  deriving DecidableEq, Repr

/-- The fields of an `AVStream` that `main` reads. -/
structure AVStream where
  codec_type : AVMediaType
  time_base : AVRational
  deriving DecidableEq, Repr

/-- The fields of an `AVPacket` that `main` reads or writes. -/
structure AVPacket where
  stream_index : Nat
  pts : Int
  dts : Int
  duration : Int
  pos : Int
  deriving DecidableEq, Repr

/-- The two counters of line 74, `uint32_t next_vpts = 0, next_apts = 0`. -/
structure Clocks where
  next_vpts : Nat
  next_apts : Nat
  deriving DecidableEq, Repr

/-- One iteration of `while (1)` as the library answers it: the result of
`av_read_frame`, the packet it filled in, and the result
`av_interleaved_write_frame` gives for that packet. -/
structure ReadResult where
  ret : Int
  pkt : AVPacket
  wret : Int
  deriving DecidableEq, Repr

/-- One input as the library presents it: the results of
`avformat_open_input` and `avformat_find_stream_info`, the stream table, and
the successive answers of `av_read_frame`.  The file is finite: once `reads`
is used up `av_read_frame` answers `AVERROR_EOF`. -/
structure InputFile where
  openRet : Int
  probeRet : Int
  nb_streams : Nat
  streams : Nat → AVStream
  reads : List ReadResult

/-- Everything the library decides during one run of `main`. -/
structure World where
  /-- the file behind `in_filename[i]` -/
  input : Nat → InputFile
  /-- whether `avformat_alloc_output_context2` produced a context -/
  outCtxOk : Bool
  /-- value of `ofmt->flags & AVFMT_NOFILE` -/
  nofile : Bool
  /-- whether `avformat_new_stream` for stream `i` returned a stream -/
  newStreamOk : Nat → Bool
  /-- result of `avcodec_copy_context` for stream `i` -/
  copyRet : Nat → Int
  /-- result of `avio_open` -/
  avioRet : Int
  /-- result of `avformat_write_header` -/
  headerRet : Int
  /-- value of `ofmt_ctx->streams[i]->time_base` after the header is written -/
  outTimeBase : Nat → AVRational
  /-- result of `av_write_trailer` -/
  trailerRet : Int

/-- What lines 171-181 did to one packet: class of the owning stream,
counters before and after the branch, and the packet as `log_packet` prints it
at line 181 (timestamps replaced, duration still as read). -/
structure Stamp where
  ty : AVMediaType
  before : Clocks
  after : Clocks
  pkt : AVPacket
  deriving DecidableEq, Repr

/-- The calls of `main` that the properties below speak about. -/
inductive Event where
  /-- the usage text of lines 77-80 -/
  | usage
  /-- call of `avformat_write_header` and its result -/
  | header (ret : Int)
  /-- call of `av_read_frame` on input `i` and its result -/
  | read (i : Nat) (ret : Int)
  /-- lines 171-181 for a packet of input `i` -/
  | synth (i : Nat) (s : Stamp)
  /-- call of `av_interleaved_write_frame` for a packet of input `i` and its result -/
  | write (i : Nat) (pkt : AVPacket) (ret : Int)
  /-- call of `av_write_trailer` and its (discarded) result -/
  | trailer (ret : Int)
  deriving DecidableEq, Repr

/-- What a run leaves behind: the value `main` returns and the calls it made.
`exit` is `none` for a run that ends at an access outside one of the tables
(`in_filename`, `ifmt_ctxs`, a `streams` array): the source checks none of
these indices, and nothing after such an access is part of the run. -/
structure Outcome where
  exit : Option Int
  trace : List Event
  deriving DecidableEq, Repr

/-! ## Arithmetic of the copy loop -/

/-- The statement `next += pkt.duration` on a `uint32_t` counter with an `int64_t` operand:
the sum is formed in 64 bits and converted back modulo `2^32`. -/
def addU32 (next : Nat) (duration : Int) : Nat :=
  (((next : Int) + duration) % (UINT32_MOD : Int)).toNat

/-- Lines 171-179. -/
def synthesize (c : Clocks) (ty : AVMediaType) (pkt : AVPacket) : AVPacket × Clocks :=
  if ty = AVMediaType.VIDEO then
    ({ pkt with pts := (c.next_vpts : Int), dts := (c.next_vpts : Int) },
     { c with next_vpts := addU32 c.next_vpts pkt.duration })
  else
    ({ pkt with pts := (c.next_apts : Int), dts := (c.next_apts : Int) },
     { c with next_apts := addU32 c.next_apts pkt.duration })

/-- Modelled from the spec: the body of libavutil's `av_rescale_rnd` for
`AV_ROUND_NEAR_INF`, which is not part of this repository.  The value
`a * b / c` rounded to the nearest integer, halves away from zero. -/
def rescaleNear (a b c : Int) : Int :=
  if a < 0 then -(((-a) * b + c / 2) / c) else (a * b + c / 2) / c

/-- Modelled from the spec: libavutil's `av_rescale_q_rnd` with the flags of
lines 184-185, `AV_ROUND_NEAR_INF|AV_ROUND_PASS_MINMAX`, which is not part of
this repository.  The two extreme values pass through unchanged, every other
value is converted from time base `bq` to time base `cq` with nearest
rounding. -/
def av_rescale_q_rnd (a : Int) (bq cq : AVRational) : Int :=
  if a = INT64_MIN ∨ a = INT64_MAX then a
  else rescaleNear a (bq.num * cq.den) (cq.num * bq.den)

/-- Modelled from the spec: libavutil's `av_rescale_q` of line 186, which is
not part of this repository: nearest rounding without the pass-through. -/
def av_rescale_q (a : Int) (bq cq : AVRational) : Int :=
  rescaleNear a (bq.num * cq.den) (cq.num * bq.den)

/-- Lines 184-187. -/
def copyPacket (pkt : AVPacket) (inTb outTb : AVRational) : AVPacket :=
  { pkt with
    pts := av_rescale_q_rnd pkt.pts inTb outTb
    dts := av_rescale_q_rnd pkt.dts inTb outTb
    duration := av_rescale_q pkt.duration inTb outTb
    pos := -1 }

/-! ## The copy loop -/

/-- State after a loop: the counters, the last value of `ret`, the calls
made, oldest first, and whether the loop ended at an access outside a stream
table. -/
structure LoopResult where
  clocks : Clocks
  ret : Int
  events : List Event
  fault : Bool
  deriving DecidableEq, Repr

/-- The element `tbl[idx]` of a `streams` array with `nb` entries.
Lines 168-169 index the arrays with `pkt.stream_index` unchecked; the element
exists only for an index inside the array. -/
def streamAt {α : Type} (nb : Nat) (tbl : Nat → α) (idx : Nat) : Option α :=
  if idx < nb then some (tbl idx) else none

/-- Lines 161-196, the `while (1)` of input `i`, whose context has `nbIn`
streams, writing to an output context with `nbOut` streams.  Both `break`s
leave only this loop.  A `pkt.stream_index` outside `ifmt_ctx->streams`
(line 168) or `ofmt_ctx->streams` (line 169) ends the run. -/
def packetLoop (i : Nat) (nbIn : Nat) (streams : Nat → AVStream) (nbOut : Nat)
    (outTb : Nat → AVRational) : List ReadResult → Clocks → LoopResult
  | [], c =>
    { clocks := c, ret := AVERROR_EOF, events := [Event.read i AVERROR_EOF], fault := false }
  | r :: rest, c =>
    if r.ret < 0 then
      { clocks := c, ret := r.ret, events := [Event.read i r.ret], fault := false }
    else
      match streamAt nbIn streams r.pkt.stream_index,
            streamAt nbOut outTb r.pkt.stream_index with
      | some in_stream, some out_time_base =>
        let s := synthesize c in_stream.codec_type r.pkt
        let out := copyPacket s.1 in_stream.time_base out_time_base
        let evs := [Event.read i r.ret,
                    Event.synth i
                      { ty := in_stream.codec_type, before := c, after := s.2, pkt := s.1 },
                    Event.write i out r.wret]
        if r.wret < 0 then
          { clocks := s.2, ret := r.wret, events := evs, fault := false }
        else
          let k := packetLoop i nbIn streams nbOut outTb rest s.2
          { k with events := evs ++ k.events }
      | _, _ =>
        { clocks := c, ret := r.ret, events := [Event.read i r.ret], fault := true }

/-- Lines 159-197, the `for` over the inputs, starting at index `i` with the
inputs still to be processed. -/
def copyLoop (nbOut : Nat) (outTb : Nat → AVRational) :
    List InputFile → Nat → Clocks → Int → LoopResult
  | [], _, c, ret => { clocks := c, ret := ret, events := [], fault := false }
  | f :: fs, i, c, _ =>
    let k := packetLoop i f.nb_streams f.streams nbOut outTb f.reads c
    if k.fault = true then k
    else
      let k2 := copyLoop nbOut outTb fs (i + 1) k.clocks k.ret
      { k2 with events := k.events ++ k2.events }

/-! ## Setup and `main` -/

/-- Lines 93-106.  `Except.error ret` is a `goto end` with that `ret`,
`Except.ok ret` is the loop running to its end. -/
def openInputs : List InputFile → Int → Except Int Int
  | [], ret => Except.ok ret
  | f :: fs, _ =>
    if f.openRet < 0 then Except.error f.openRet
    else if f.probeRet < 0 then Except.error f.probeRet
    else openInputs fs f.probeRet

/-- Lines 118-141, for the stream indices still to be handled.  A failed
`avformat_new_stream` sets `ret = AVERROR_UNKNOWN`; a failed
`avcodec_copy_context` jumps to `end` without touching `ret`. -/
def buildSchema (w : World) : List Nat → Int → Except Int Int
  | [], ret => Except.ok ret
  | i :: rest, ret =>
    if w.newStreamOk i = false then Except.error AVERROR_UNKNOWN
    else if w.copyRet i < 0 then Except.error ret
    else buildSchema w rest ret

/-- Lines 145-151. -/
def openOutput (w : World) (ret : Int) : Except Int Int :=
  if w.nofile then Except.ok ret
  else if w.avioRet < 0 then Except.error w.avioRet
  else Except.ok w.avioRet

/-- The inputs behind `ifmt_ctxs[0]`, ..., `ifmt_ctxs[infile_num - 1]`, in
order. -/
def inputsOf (w : World) (infile_num : Nat) : List InputFile :=
  (List.range infile_num).map w.input

/-- Lines 93-151: everything between argument handling and the header.  `ret`
is not initialised at line 72; the 0 passed to `openInputs` is never returned
for a non-empty list of inputs. -/
def setup (w : World) (infile_num : Nat) : Except Int Int :=
  match openInputs (inputsOf w infile_num) 0 with
  | Except.error ret => Except.error ret
  | Except.ok ret =>
    if w.outCtxOk = false then Except.error AVERROR_UNKNOWN
    else
      match buildSchema w (List.range (w.input 0).nb_streams) ret with
      | Except.error ret => Except.error ret
      | Except.ok ret => openOutput w ret

/-- Lines 209-214. -/
def exitCode (ret : Int) : Int :=
  if ret < 0 ∧ ret ≠ AVERROR_EOF then 1 else 0

/-! ## The input tables -/

/-- A store `tbl[i] = v` into a table declared with `MAX_INPUT_NUM` slots.
It is defined only for an index inside the table. -/
def tableStore {α : Type} (tbl : List α) (i : Nat) (v : α) : Option (List α) :=
  if i < MAX_INPUT_NUM then some (tbl.set i v) else none

/-- Lines 84-88 from index `i` on: `in_filename[i] = argv[i+1]` and
`ifmt_ctxs[i] = NULL` (an open context is `true`, `NULL` is `false`). -/
def fillFrom (argv : List String) :
    List Nat → List String × List Bool → Option (List String × List Bool)
  | [], t => some t
  | i :: rest, t =>
    match tableStore t.1 i (argv.getD (i + 1) "") with
    | none => none
    | some names =>
      match tableStore t.2 i false with
      | none => none
      | some ctxs => fillFrom argv rest (names, ctxs)

/-- Lines 69-88: the two tables after the fill loop, `none` when a store fell
outside them. -/
def fillTables (argv : List String) : Option (List String × List Bool) :=
  fillFrom argv (List.range (argv.length - 2))
    (List.replicate MAX_INPUT_NUM "", List.replicate MAX_INPUT_NUM false)

/-- The indices with which lines 85-88, 93-106, 159-160 and 200-202 address
the tables: `0 ≤ i < infile_num`. -/
def tableIndices (argc : Nat) : List Nat :=
  List.range (argc - 2)

/-- The function `main` of lines 65-215, with `argc = argv.length`.  The fill
loop of lines 84-88 runs first; a store outside the ten-slot tables ends the
run.  After a completed fill loop `infile_num <= MAX_INPUT_NUM`, so the loops
of lines 93, 159 and 200 over `i < infile_num` stay inside the tables.  The
output context has one stream per stream of input 0 (lines 117-141). -/
def main (argv : List String) (w : World) : Outcome :=
  if argv.length < 4 then { exit := some 1, trace := [Event.usage] }
  else
    let infile_num := argv.length - 2
    match fillTables argv with
    | none => { exit := none, trace := [] }
    | some _ =>
      match setup w infile_num with
      | Except.error ret => { exit := some (exitCode ret), trace := [] }
      | Except.ok _ =>
        if w.headerRet < 0 then
          { exit := some (exitCode w.headerRet), trace := [Event.header w.headerRet] }
        else
          let k := copyLoop (w.input 0).nb_streams w.outTimeBase (inputsOf w infile_num) 0
                     { next_vpts := 0, next_apts := 0 } w.headerRet
          if k.fault = true then
            { exit := none, trace := Event.header w.headerRet :: k.events }
          else
            { exit := some (exitCode k.ret)
              trace := Event.header w.headerRet :: (k.events ++ [Event.trailer w.trailerRet]) }

/-- The counter that lines 171-179 use for a packet whose stream has class
`ty`: `next_vpts` in the `if`, `next_apts` in the `else`. -/
def clockFor (ty : AVMediaType) (c : Clocks) : Nat :=
  if ty = AVMediaType.VIDEO then c.next_vpts else c.next_apts

/-- The value of `ret` with which the `while (1)` of lines 161-196 is left,
read off the answers of the library alone. -/
def loopEnd : List ReadResult → Int
  | [] => AVERROR_EOF
  | r :: rest =>
    if r.ret < 0 then r.ret
    else if r.wret < 0 then r.wret
    else loopEnd rest

/-! ## Reading a trace -/

/-- The records of lines 171-181 in a trace, in processing order. -/
def stamps : List Event → List Stamp
  | [] => []
  | Event.synth _ s :: es => s :: stamps es
  | _ :: es => stamps es

/-- The input an event belongs to, for the events of the copy loop. -/
def Event.input : Event → Option Nat
  | Event.read i _ => some i
  | Event.synth i _ => some i
  | Event.write i _ _ => some i
  | _ => none

/-- Events made inside the copy loop: a read, a synthesis or a packet write. -/
def Event.inLoop : Event → Bool
  | Event.read _ _ => true
  | Event.synth _ _ => true
  | Event.write _ _ _ => true
  | _ => false

/-- A header write. -/
def Event.isHeader : Event → Bool
  | Event.header _ => true
  | _ => false

/-- A header write that succeeded. -/
def Event.isHeaderOk : Event → Bool
  | Event.header ret => decide (0 ≤ ret)
  | _ => false

/-- A packet write. -/
def Event.isWrite : Event → Bool
  | Event.write _ _ _ => true
  | _ => false

/-- A trailer write. -/
def Event.isTrailer : Event → Bool
  | Event.trailer _ => true
  | _ => false

/-! ## Counters and stamps -/

/-- The counter selected by `v`: `next_vpts` for `true`, `next_apts` for
`false`. -/
def Clocks.of (v : Bool) (c : Clocks) : Nat :=
  if v then c.next_vpts else c.next_apts

/-- The stamps `ss` are what successive executions of lines 171-179 leave
when they start from the counters `c`: each starts where the one before
stopped, puts the counter of its branch into pts and dts, and moves the
counters as `synthesize` does. -/
def Linked (c : Clocks) : List Stamp → Prop
  | [] => True
  | s :: ss =>
    s.before = c ∧ s.pkt.pts = (clockFor s.ty c : Int) ∧ s.pkt.dts = (clockFor s.ty c : Int) ∧
    s.after = (synthesize c s.ty s.pkt).2 ∧ Linked s.after ss

/-- The counters after the stamps `ss`, starting from `c`. -/
def endClocks (c : Clocks) : List Stamp → Clocks
  | [] => c
  | s :: ss => endClocks s.after ss

/-- Sum of the declared durations of the packets in `reads` that use the
counter selected by `v`. -/
def classDuration (st : Nat → AVStream) (v : Bool) : List ReadResult → Int
  | [] => 0
  | r :: rest =>
    (if (decide ((st r.pkt.stream_index).codec_type = AVMediaType.VIDEO) == v) = true
      then r.pkt.duration else 0)
    + classDuration st v rest

/-- Sum of `classDuration` over a list of inputs. -/
def totalDuration (v : Bool) : List InputFile → Int
  | [] => 0
  | f :: fs => classDuration f.streams v f.reads + totalDuration v fs

/-! ## Properties of a trace -/

/-- No packet is written unless a header write has succeeded before it. -/
def PacketsAfterHeader (t : List Event) : Prop :=
  ∀ pre e post, t = pre ++ e :: post → e.isWrite = true → ∃ h ∈ pre, h.isHeaderOk = true

/-- The header is written at most once. -/
def HeaderAtMostOnce (t : List Event) : Prop :=
  (t.filter Event.isHeader).length ≤ 1

/-- Whenever the header write succeeded, the trailer is written exactly once
and after every packet write. -/
def TrailerOnceAfterPackets (t : List Event) : Prop :=
  (∃ h ∈ t, h.isHeaderOk = true) →
    (t.filter Event.isTrailer).length = 1 ∧
    ∀ pre e post, t = pre ++ e :: post → e.isWrite = true → ∃ x ∈ post, x.isTrailer = true

/-- After a failed packet write on input `i` no event of the copy loop
belongs to input `i` or to a later input, and the trailer is written. -/
def WriteFailureEndsCopy (t : List Event) : Prop :=
  ∀ pre i p ret post, t = pre ++ Event.write i p ret :: post → ret < 0 →
    (∀ e ∈ post, ∀ k, i ≤ k → e.input ≠ some k) ∧ ∃ x ∈ post, x.isTrailer = true

/-- After a failed packet write on input `i` no event of the copy loop belongs
to input `i`, every later input of the `n` inputs is still read, and the
trailer is written. -/
def WriteFailureEndsInput (n : Nat) (t : List Event) : Prop :=
  ∀ pre i p ret post, t = pre ++ Event.write i p ret :: post → ret < 0 →
    (∀ e ∈ post, e.input ≠ some i) ∧
    (∀ k, i < k → k < n → ∃ r, Event.read k r ∈ post) ∧
    ∃ x ∈ post, x.isTrailer = true

/-- The timestamp of `q` is the timestamp of `p` plus the duration of `p`. -/
def Follows (p q : Stamp) : Prop :=
  q.pkt.pts = p.pkt.pts + p.pkt.duration ∧ q.pkt.dts = p.pkt.dts + p.pkt.duration

instance (p q : Stamp) : Decidable (Follows p q) :=
  inferInstanceAs
    (Decidable (q.pkt.pts = p.pkt.pts + p.pkt.duration ∧ q.pkt.dts = p.pkt.dts + p.pkt.duration))

/-- The timestamp of `q` is the timestamp of `p` plus the duration of `p`,
reduced modulo 2^32. -/
def FollowsMod32 (p q : Stamp) : Prop :=
  q.pkt.pts = (p.pkt.pts + p.pkt.duration) % 4294967296 ∧
  q.pkt.dts = (p.pkt.dts + p.pkt.duration) % 4294967296

/-- Continuity per media-type class: among the video packets, and among the
audio packets, each packet follows the one before it. -/
def Continuity (t : List Event) : Prop :=
  List.Chain' Follows ((stamps t).filter (fun s => decide (s.ty = AVMediaType.VIDEO))) ∧
  List.Chain' Follows ((stamps t).filter (fun s => decide (s.ty = AVMediaType.AUDIO)))

/-- Continuity per counter: among the packets of video streams (`v = true`),
and among the packets of all other streams (`v = false`), each packet follows
the one before it modulo 2^32. -/
def ContinuityPerCounter (t : List Event) : Prop :=
  ∀ v : Bool, List.Chain' FollowsMod32
    ((stamps t).filter (fun s => decide (s.ty = AVMediaType.VIDEO) == v))

/-- Every packet that the inputs `fs` deliver carries a stream index inside
the `streams` array of its own input and inside that of an output context
with `nbOut` streams. -/
def IndicesInside (nbOut : Nat) (fs : List InputFile) : Prop :=
  ∀ f ∈ fs, ∀ r ∈ f.reads, 0 ≤ r.ret →
    r.pkt.stream_index < f.nb_streams ∧ r.pkt.stream_index < nbOut

/-- No step lowers a counter. -/
def ClocksNeverDecrease (t : List Event) : Prop :=
  ∀ s ∈ stamps t,
    s.before.next_vpts ≤ s.after.next_vpts ∧ s.before.next_apts ≤ s.after.next_apts

/-- Every packet of every input has a non-negative declared duration. -/
def DurationsNonneg (fs : List InputFile) : Prop :=
  ∀ f ∈ fs, ∀ r ∈ f.reads, 0 ≤ r.pkt.duration

/-! ## Concrete inputs used by the closed theorems -/

/-- A packet of stream `idx` with the given timestamps and duration. -/
def mkPacket (idx : Nat) (pts dts duration : Int) : AVPacket :=
  { stream_index := idx, pts := pts, dts := dts, duration := duration, pos := 0 }

/-- A successful read of `pkt` whose write then returns `wret`. -/
def frame (pkt : AVPacket) (wret : Int) : ReadResult :=
  { ret := 0, pkt := pkt, wret := wret }

/-- An input that opens and probes without error, with a video stream 0
(time base 1/30), an audio stream 1 (time base 1/48000) and a subtitle
stream 2 (time base 1/1000), answering `av_read_frame` with `reads`. -/
def sampleFile (reads : List ReadResult) : InputFile :=
  { openRet := 0
    probeRet := 0
    nb_streams := 3
    streams := fun i =>
      if i = 0 then { codec_type := AVMediaType.VIDEO, time_base := { num := 1, den := 30 } }
      else if i = 1 then
        { codec_type := AVMediaType.AUDIO, time_base := { num := 1, den := 48000 } }
      else { codec_type := AVMediaType.SUBTITLE, time_base := { num := 1, den := 1000 } }
    reads := reads }

/-- A run over the inputs `f0` and `f1` in which every setup call succeeds and
the output keeps the time bases of `sampleFile`. -/
def sampleWorld (f0 f1 : InputFile) : World :=
  { input := fun i => if i = 0 then f0 else f1
    outCtxOk := true
    nofile := false
    newStreamOk := fun _ => true
    copyRet := fun _ => 0
    avioRet := 0
    headerRet := 0
    outTimeBase := fun i =>
      if i = 0 then { num := 1, den := 30 }
      else if i = 1 then { num := 1, den := 48000 }
      else { num := 1, den := 1000 }
    trailerRet := 0 }

/-- The run of `sampleWorld` in which `avcodec_copy_context` fails with
`AVERROR(EINVAL)` = -22 for every stream. -/
def copyFailWorld : World :=
  { sampleWorld (sampleFile [frame (mkPacket 0 0 0 1) 0]) (sampleFile []) with
    copyRet := fun _ => -22 }

/-- The run of `sampleWorld` in which `avformat_new_stream` returns no stream. -/
def allocFailWorld : World :=
  { sampleWorld (sampleFile [frame (mkPacket 0 0 0 1) 0]) (sampleFile []) with
    newStreamOk := fun _ => false }

/-- A run over two inputs with one video packet each, in which the write of
the packet of input 0 fails with -5. -/
def writeFailWorld : World :=
  sampleWorld (sampleFile [frame (mkPacket 0 0 0 1) (-5)]) (sampleFile [frame (mkPacket 0 0 0 1) 0])

/-- The calls `main` makes in `writeFailWorld` up to the failing write. -/
def writeFailBefore : List Event :=
  [Event.header 0,
   Event.read 0 0,
   Event.synth 0 { ty := AVMediaType.VIDEO
                   before := { next_vpts := 0, next_apts := 0 }
                   after := { next_vpts := 1, next_apts := 0 }
                   pkt := { stream_index := 0, pts := 0, dts := 0, duration := 1, pos := 0 } }]

/-- The calls `main` makes in `writeFailWorld` after the failing write. -/
def writeFailAfter : List Event :=
  [Event.read 1 0,
   Event.synth 1 { ty := AVMediaType.VIDEO
                   before := { next_vpts := 1, next_apts := 0 }
                   after := { next_vpts := 2, next_apts := 0 }
                   pkt := { stream_index := 0, pts := 1, dts := 1, duration := 1, pos := 0 } },
   Event.write 1 { stream_index := 0, pts := 1, dts := 1, duration := 1, pos := -1 } 0,
   Event.read 1 AVERROR_EOF,
   Event.trailer 0]

/-- A run over two inputs.  Input 0 holds an audio packet (duration 1024),
a subtitle packet (duration 5), an audio packet (duration 1024) and a video
packet (duration 4294967295); input 1 holds two video packets (durations 2
and 1).  Every write succeeds. -/
def mixedWorld : World :=
  sampleWorld
    (sampleFile [frame (mkPacket 1 7 7 1024) 0, frame (mkPacket 2 7 7 5) 0,
                 frame (mkPacket 1 7 7 1024) 0, frame (mkPacket 0 7 7 4294967295) 0])
    (sampleFile [frame (mkPacket 0 7 7 2) 0, frame (mkPacket 0 7 7 1) 0])

/-- A run over two inputs with one video packet each, of durations 4294967295
and 1.  Every write succeeds. -/
def wrapWorld : World :=
  sampleWorld (sampleFile [frame (mkPacket 0 0 0 4294967295) 0])
    (sampleFile [frame (mkPacket 0 0 0 1) 0])

/-- A run over two inputs with five video packets of duration 1 and five
audio packets of duration 1024 each. -/
def scenarioWorld : World :=
  sampleWorld
    (sampleFile [frame (mkPacket 0 0 0 1) 0, frame (mkPacket 1 0 0 1024) 0,
                 frame (mkPacket 0 1 1 1) 0, frame (mkPacket 1 1024 1024 1024) 0,
                 frame (mkPacket 0 2 2 1) 0, frame (mkPacket 1 2048 2048 1024) 0,
                 frame (mkPacket 0 3 3 1) 0, frame (mkPacket 1 3072 3072 1024) 0,
                 frame (mkPacket 0 4 4 1) 0, frame (mkPacket 1 4096 4096 1024) 0])
    (sampleFile [frame (mkPacket 0 0 0 1) 0, frame (mkPacket 1 0 0 1024) 0,
                 frame (mkPacket 0 1 1 1) 0, frame (mkPacket 1 1024 1024 1024) 0,
                 frame (mkPacket 0 2 2 1) 0, frame (mkPacket 1 2048 2048 1024) 0,
                 frame (mkPacket 0 3 3 1) 0, frame (mkPacket 1 3072 3072 1024) 0,
                 frame (mkPacket 0 4 4 1) 0, frame (mkPacket 1 4096 4096 1024) 0])

/-- A run over two inputs in which input 0 delivers a packet of stream 5,
which neither input 0 nor the output context has (three streams each), and
input 1 delivers nothing. -/
def strayWorld : World :=
  sampleWorld (sampleFile [frame (mkPacket 5 0 0 1) 0]) (sampleFile [])

/-- A run over two inputs in which the write of the packet of input 0 fails
with -5 and input 1 then delivers a packet of stream 5, which the output
context does not have. -/
def writeFailStrayWorld : World :=
  sampleWorld (sampleFile [frame (mkPacket 0 0 0 1) (-5)])
    (sampleFile [frame (mkPacket 5 0 0 1) 0])

/-- An argument vector with eleven input paths and one output path. -/
def elevenInputs : List String :=
  ["merger", "a0", "a1", "a2", "a3", "a4", "a5", "a6", "a7", "a8", "a9", "a10", "out.mp4"]

/-- An argument vector with two input paths and one output path. -/
def twoInputs : List String :=
  ["merger", "a0", "a1", "out.mp4"]

/-! ## The two loops, case by case -/

theorem AVERROR_EOF_neg : AVERROR_EOF < 0 := by decide

theorem packetLoop_nil (i nbIn : Nat) (st : Nat → AVStream) (nbOut : Nat)
    (tb : Nat → AVRational) (c : Clocks) :
    packetLoop i nbIn st nbOut tb [] c
      = { clocks := c, ret := AVERROR_EOF, events := [Event.read i AVERROR_EOF],
          fault := false } := rfl

theorem packetLoop_read_fail (i nbIn : Nat) (st : Nat → AVStream) (nbOut : Nat)
    (tb : Nat → AVRational) (r : ReadResult) (rest : List ReadResult) (c : Clocks)
    (h : r.ret < 0) :
    packetLoop i nbIn st nbOut tb (r :: rest) c
      = { clocks := c, ret := r.ret, events := [Event.read i r.ret], fault := false } := by
  simp [packetLoop, h]

theorem packetLoop_stray (i nbIn : Nat) (st : Nat → AVStream) (nbOut : Nat)
    (tb : Nat → AVRational) (r : ReadResult) (rest : List ReadResult) (c : Clocks)
    (h : ¬ r.ret < 0) (hs : ¬ (r.pkt.stream_index < nbIn ∧ r.pkt.stream_index < nbOut)) :
    packetLoop i nbIn st nbOut tb (r :: rest) c
      = { clocks := c, ret := r.ret, events := [Event.read i r.ret], fault := true } := by
  by_cases h1 : r.pkt.stream_index < nbIn
  · have h2 : ¬ r.pkt.stream_index < nbOut := fun h2 => hs ⟨h1, h2⟩
    simp [packetLoop, streamAt, h, h1, h2]
  · simp [packetLoop, streamAt, h, h1]

theorem packetLoop_write_fail (i nbIn : Nat) (st : Nat → AVStream) (nbOut : Nat)
    (tb : Nat → AVRational) (r : ReadResult) (rest : List ReadResult) (c : Clocks)
    (h : ¬ r.ret < 0) (h1 : r.pkt.stream_index < nbIn) (h2 : r.pkt.stream_index < nbOut)
    (hw : r.wret < 0) :
    packetLoop i nbIn st nbOut tb (r :: rest) c
      = { clocks := (synthesize c (st r.pkt.stream_index).codec_type r.pkt).2
          ret := r.wret
          events :=
            [Event.read i r.ret,
             Event.synth i
               { ty := (st r.pkt.stream_index).codec_type
                 before := c
                 after := (synthesize c (st r.pkt.stream_index).codec_type r.pkt).2
                 pkt := (synthesize c (st r.pkt.stream_index).codec_type r.pkt).1 },
             Event.write i
               (copyPacket (synthesize c (st r.pkt.stream_index).codec_type r.pkt).1
                 (st r.pkt.stream_index).time_base (tb r.pkt.stream_index)) r.wret]
          fault := false } := by
  simp [packetLoop, streamAt, h, h1, h2, hw]

theorem packetLoop_ok (i nbIn : Nat) (st : Nat → AVStream) (nbOut : Nat)
    (tb : Nat → AVRational) (r : ReadResult) (rest : List ReadResult) (c : Clocks)
    (h : ¬ r.ret < 0) (h1 : r.pkt.stream_index < nbIn) (h2 : r.pkt.stream_index < nbOut)
    (hw : ¬ r.wret < 0) :
    packetLoop i nbIn st nbOut tb (r :: rest) c
      = { clocks := (packetLoop i nbIn st nbOut tb rest
                      (synthesize c (st r.pkt.stream_index).codec_type r.pkt).2).clocks
          ret := (packetLoop i nbIn st nbOut tb rest
                      (synthesize c (st r.pkt.stream_index).codec_type r.pkt).2).ret
          events :=
            [Event.read i r.ret,
             Event.synth i
               { ty := (st r.pkt.stream_index).codec_type
                 before := c
                 after := (synthesize c (st r.pkt.stream_index).codec_type r.pkt).2
                 pkt := (synthesize c (st r.pkt.stream_index).codec_type r.pkt).1 },
             Event.write i
               (copyPacket (synthesize c (st r.pkt.stream_index).codec_type r.pkt).1
                 (st r.pkt.stream_index).time_base (tb r.pkt.stream_index)) r.wret]
            ++ (packetLoop i nbIn st nbOut tb rest
                  (synthesize c (st r.pkt.stream_index).codec_type r.pkt).2).events
          fault := (packetLoop i nbIn st nbOut tb rest
                      (synthesize c (st r.pkt.stream_index).codec_type r.pkt).2).fault } := by
  simp [packetLoop, streamAt, h, h1, h2, hw]

theorem copyLoop_nil (nbOut : Nat) (tb : Nat → AVRational) (i : Nat) (c : Clocks) (ret : Int) :
    copyLoop nbOut tb [] i c ret
      = { clocks := c, ret := ret, events := [], fault := false } := rfl

theorem copyLoop_cons_fault (nbOut : Nat) (tb : Nat → AVRational) (f : InputFile)
    (fs : List InputFile) (i : Nat) (c : Clocks) (ret : Int)
    (hf : (packetLoop i f.nb_streams f.streams nbOut tb f.reads c).fault = true) :
    copyLoop nbOut tb (f :: fs) i c ret
      = packetLoop i f.nb_streams f.streams nbOut tb f.reads c := by
  simp [copyLoop, hf]

theorem copyLoop_cons (nbOut : Nat) (tb : Nat → AVRational) (f : InputFile)
    (fs : List InputFile) (i : Nat) (c : Clocks) (ret : Int)
    (hf : (packetLoop i f.nb_streams f.streams nbOut tb f.reads c).fault = false) :
    copyLoop nbOut tb (f :: fs) i c ret
      = { clocks := (copyLoop nbOut tb fs (i + 1)
                      (packetLoop i f.nb_streams f.streams nbOut tb f.reads c).clocks
                      (packetLoop i f.nb_streams f.streams nbOut tb f.reads c).ret).clocks
          ret := (copyLoop nbOut tb fs (i + 1)
                      (packetLoop i f.nb_streams f.streams nbOut tb f.reads c).clocks
                      (packetLoop i f.nb_streams f.streams nbOut tb f.reads c).ret).ret
          events := (packetLoop i f.nb_streams f.streams nbOut tb f.reads c).events
            ++ (copyLoop nbOut tb fs (i + 1)
                      (packetLoop i f.nb_streams f.streams nbOut tb f.reads c).clocks
                      (packetLoop i f.nb_streams f.streams nbOut tb f.reads c).ret).events
          fault := (copyLoop nbOut tb fs (i + 1)
                      (packetLoop i f.nb_streams f.streams nbOut tb f.reads c).clocks
                      (packetLoop i f.nb_streams f.streams nbOut tb f.reads c).ret).fault } := by
  simp [copyLoop, hf]

/-- The three ways one iteration of `while (1)` can go on a delivered packet,
decided by the stream index. -/
theorem index_cases (nbIn nbOut idx : Nat) :
    (idx < nbIn ∧ idx < nbOut) ∨ ¬ (idx < nbIn ∧ idx < nbOut) := by
  by_cases h : idx < nbIn ∧ idx < nbOut
  · exact Or.inl h
  · exact Or.inr h

/-- With every delivered stream index inside the tables the `while (1)` of one
input does not end at a stray access, and it is left with a value of `ret`
that depends on the answers of the library for that input only. -/
theorem packetLoop_inside (i nbIn : Nat) (st : Nat → AVStream) (nbOut : Nat)
    (tb : Nat → AVRational) (reads : List ReadResult) (c : Clocks)
    (hin : ∀ r ∈ reads, 0 ≤ r.ret → r.pkt.stream_index < nbIn ∧ r.pkt.stream_index < nbOut) :
    (packetLoop i nbIn st nbOut tb reads c).fault = false ∧
    (packetLoop i nbIn st nbOut tb reads c).ret = loopEnd reads := by
  induction reads generalizing c with
  | nil => exact ⟨rfl, rfl⟩
  | cons r rest ih =>
    by_cases h : r.ret < 0
    · rw [packetLoop_read_fail _ _ _ _ _ _ _ _ h]
      simp [loopEnd, h]
    · have hi := hin r (by simp) (by omega)
      by_cases hw : r.wret < 0
      · rw [packetLoop_write_fail _ _ _ _ _ _ _ _ h hi.1 hi.2 hw]
        simp [loopEnd, h, hw]
      · rw [packetLoop_ok _ _ _ _ _ _ _ _ h hi.1 hi.2 hw]
        simp only [loopEnd, h, hw, if_false]
        exact ih _ (fun x hx => hin x (by simp [hx]))

theorem loopEnd_neg (reads : List ReadResult) : loopEnd reads < 0 := by
  induction reads with
  | nil => exact AVERROR_EOF_neg
  | cons r rest ih =>
    by_cases h : r.ret < 0
    · simp [loopEnd, h]
    · by_cases hw : r.wret < 0
      · simp [loopEnd, h, hw]
      · simpa [loopEnd, h, hw] using ih

/-- Every event of the `while (1)` of input `i` is a read, a synthesis or a
packet write on input `i`. -/
theorem packetLoop_events (i nbIn : Nat) (st : Nat → AVStream) (nbOut : Nat)
    (tb : Nat → AVRational) (reads : List ReadResult) (c : Clocks) :
    ∀ e ∈ (packetLoop i nbIn st nbOut tb reads c).events,
      e.inLoop = true ∧ e.input = some i := by
  induction reads generalizing c with
  | nil =>
    intro e he
    simp only [packetLoop_nil, List.mem_singleton] at he
    subst he
    exact ⟨rfl, rfl⟩
  | cons r rest ih =>
    intro e he
    by_cases h : r.ret < 0
    · rw [packetLoop_read_fail _ _ _ _ _ _ _ _ h] at he
      simp only [List.mem_singleton] at he
      subst he
      exact ⟨rfl, rfl⟩
    · rcases index_cases nbIn nbOut r.pkt.stream_index with hi | hi
      · by_cases hw : r.wret < 0
        · rw [packetLoop_write_fail _ _ _ _ _ _ _ _ h hi.1 hi.2 hw] at he
          simp only [List.mem_cons, List.mem_singleton, List.not_mem_nil, or_false] at he
          rcases he with he | he | he <;> subst he <;> exact ⟨rfl, rfl⟩
        · rw [packetLoop_ok _ _ _ _ _ _ _ _ h hi.1 hi.2 hw] at he
          simp only [List.cons_append, List.nil_append, List.mem_cons] at he
          rcases he with he | he | he | he
          · subst he; exact ⟨rfl, rfl⟩
          · subst he; exact ⟨rfl, rfl⟩
          · subst he; exact ⟨rfl, rfl⟩
          · exact ih _ e he
      · rw [packetLoop_stray _ _ _ _ _ _ _ _ h hi] at he
        simp only [List.mem_singleton] at he
        subst he
        exact ⟨rfl, rfl⟩

/-- A packet write that fails is the last event of its `while (1)`, and that
loop does not end at a stray access. -/
theorem packetLoop_failed_write_last (i nbIn : Nat) (st : Nat → AVStream) (nbOut : Nat)
    (tb : Nat → AVRational) (reads : List ReadResult) (c : Clocks) (pre post : List Event)
    (j : Nat) (p : AVPacket) (ret : Int) (hret : ret < 0)
    (h : (packetLoop i nbIn st nbOut tb reads c).events = pre ++ Event.write j p ret :: post) :
    post = [] ∧ (packetLoop i nbIn st nbOut tb reads c).fault = false := by
  induction reads generalizing c pre with
  | nil =>
    rw [packetLoop_nil] at h
    rcases pre with _ | ⟨e1, pre⟩
    · simp at h
    · rcases pre with _ | ⟨e2, pre⟩ <;> simp at h
  | cons r rest ih =>
    by_cases hr : r.ret < 0
    · rw [packetLoop_read_fail _ _ _ _ _ _ _ _ hr] at h
      rcases pre with _ | ⟨e1, pre⟩
      · simp at h
      · rcases pre with _ | ⟨e2, pre⟩ <;> simp at h
    · rcases index_cases nbIn nbOut r.pkt.stream_index with hi | hi
      · by_cases hw : r.wret < 0
        · rw [packetLoop_write_fail _ _ _ _ _ _ _ _ hr hi.1 hi.2 hw] at h ⊢
          rcases pre with _ | ⟨e1, _ | ⟨e2, _ | ⟨e3, pre⟩⟩⟩
          · simp at h
          · simp at h
          · simp at h
            exact ⟨h.2.2.2, rfl⟩
          · rcases pre with _ | ⟨e4, pre⟩ <;> simp at h
        · rw [packetLoop_ok _ _ _ _ _ _ _ _ hr hi.1 hi.2 hw] at h ⊢
          rcases pre with _ | ⟨e1, _ | ⟨e2, _ | ⟨e3, pre⟩⟩⟩
          · simp at h
          · simp at h
          · simp at h
            omega
          · simp only [List.cons_append, List.nil_append, List.cons.injEq] at h
            exact ih _ pre h.2.2.2
      · rw [packetLoop_stray _ _ _ _ _ _ _ _ hr hi] at h
        rcases pre with _ | ⟨e1, pre⟩
        · simp at h
        · rcases pre with _ | ⟨e2, pre⟩ <;> simp at h

/-- The `while (1)` of input `i` reads from input `i` at least once. -/
theorem packetLoop_has_read (i nbIn : Nat) (st : Nat → AVStream) (nbOut : Nat)
    (tb : Nat → AVRational) (reads : List ReadResult) (c : Clocks) :
    ∃ r, Event.read i r ∈ (packetLoop i nbIn st nbOut tb reads c).events := by
  cases reads with
  | nil => exact ⟨AVERROR_EOF, by simp [packetLoop_nil]⟩
  | cons r rest =>
    by_cases h : r.ret < 0
    · exact ⟨r.ret, by simp [packetLoop_read_fail _ _ _ _ _ _ _ _ h]⟩
    · rcases index_cases nbIn nbOut r.pkt.stream_index with hi | hi
      · by_cases hw : r.wret < 0
        · exact ⟨r.ret, by simp [packetLoop_write_fail _ _ _ _ _ _ _ _ h hi.1 hi.2 hw]⟩
        · exact ⟨r.ret, by simp [packetLoop_ok _ _ _ _ _ _ _ _ h hi.1 hi.2 hw]⟩
      · exact ⟨r.ret, by simp [packetLoop_stray _ _ _ _ _ _ _ _ h hi]⟩

theorem copyLoop_events (nbOut : Nat) (tb : Nat → AVRational) (fs : List InputFile) (i : Nat)
    (c : Clocks) (ret : Int) :
    ∀ e ∈ (copyLoop nbOut tb fs i c ret).events,
      e.inLoop = true ∧ ∃ j, i ≤ j ∧ e.input = some j := by
  induction fs generalizing i c ret with
  | nil =>
    intro e he
    simp [copyLoop_nil] at he
  | cons f fs ih =>
    intro e he
    cases hf : (packetLoop i f.nb_streams f.streams nbOut tb f.reads c).fault with
    | true =>
      rw [copyLoop_cons_fault _ _ _ _ _ _ _ hf] at he
      have h := packetLoop_events i f.nb_streams f.streams nbOut tb f.reads c e he
      exact ⟨h.1, i, le_refl i, h.2⟩
    | false =>
      rw [copyLoop_cons _ _ _ _ _ _ _ hf] at he
      simp only [List.mem_append] at he
      rcases he with he | he
      · have h := packetLoop_events i f.nb_streams f.streams nbOut tb f.reads c e he
        exact ⟨h.1, i, le_refl i, h.2⟩
      · obtain ⟨h1, j, hj, h2⟩ := ih (i + 1) _ _ e he
        exact ⟨h1, j, by omega, h2⟩

/-- With every delivered stream index inside the tables the copy loop does
not end at a stray access. -/
theorem copyLoop_inside (nbOut : Nat) (tb : Nat → AVRational) (fs : List InputFile) (i : Nat)
    (c : Clocks) (ret : Int) (hin : IndicesInside nbOut fs) :
    (copyLoop nbOut tb fs i c ret).fault = false := by
  induction fs generalizing i c ret with
  | nil => rfl
  | cons f fs ih =>
    have hf := (packetLoop_inside i f.nb_streams f.streams nbOut tb f.reads c
      (hin f (by simp))).1
    rw [copyLoop_cons _ _ _ _ _ _ _ hf]
    exact ih _ _ _ (fun g hg => hin g (by simp [hg]))

/-- With every delivered stream index inside the tables the copy loop over at
least one input ends with the value of `ret` that ended the `while (1)` of the
last input. -/
theorem copyLoop_ret_last (nbOut : Nat) (tb : Nat → AVRational) (fs : List InputFile)
    (f : InputFile) (i : Nat) (c : Clocks) (ret : Int)
    (hin : IndicesInside nbOut (fs ++ [f])) :
    (copyLoop nbOut tb (fs ++ [f]) i c ret).ret = loopEnd f.reads := by
  induction fs generalizing i c ret with
  | nil =>
    have hp := packetLoop_inside i f.nb_streams f.streams nbOut tb f.reads c
      (hin f (by simp))
    simp only [List.nil_append]
    rw [copyLoop_cons _ _ _ _ _ _ _ hp.1]
    simp only [copyLoop_nil]
    exact hp.2
  | cons g gs ih =>
    have hp := packetLoop_inside i g.nb_streams g.streams nbOut tb g.reads c
      (hin g (by simp))
    simp only [List.cons_append]
    rw [copyLoop_cons _ _ _ _ _ _ _ hp.1]
    exact ih _ _ _ (fun x hx => hin x (by simp [List.mem_append] at hx ⊢; tauto))

/-- A copy loop that does not end at a stray access reads from every input it
is given. -/
theorem copyLoop_reads (nbOut : Nat) (tb : Nat → AVRational) (fs : List InputFile) (i : Nat)
    (c : Clocks) (ret : Int) (hok : (copyLoop nbOut tb fs i c ret).fault = false)
    (k : Nat) (hik : i ≤ k) (hk : k < i + fs.length) :
    ∃ r, Event.read k r ∈ (copyLoop nbOut tb fs i c ret).events := by
  induction fs generalizing i c ret with
  | nil =>
    simp only [List.length_nil] at hk
    omega
  | cons f fs ih =>
    cases hf : (packetLoop i f.nb_streams f.streams nbOut tb f.reads c).fault with
    | true =>
      rw [copyLoop_cons_fault _ _ _ _ _ _ _ hf, hf] at hok
      cases hok
    | false =>
      rw [copyLoop_cons _ _ _ _ _ _ _ hf] at hok ⊢
      by_cases hki : k = i
      · subst hki
        obtain ⟨r, hr⟩ := packetLoop_has_read k f.nb_streams f.streams nbOut tb f.reads c
        exact ⟨r, List.mem_append.mpr (Or.inl hr)⟩
      · simp only [List.length_cons] at hk
        obtain ⟨r, hr⟩ := ih (i + 1) _ _ hok (by omega) (by omega)
        exact ⟨r, List.mem_append.mpr (Or.inr hr)⟩

/-- In the copy loop, what follows a failed packet write on input `j` belongs
to inputs after `j`; and if the loop does not end at a stray access, every
input after `j` is still read. -/
theorem copyLoop_after_failed_write (nbOut : Nat) (tb : Nat → AVRational)
    (fs : List InputFile) (i : Nat) (c : Clocks) (ret0 : Int) (pre post : List Event) (j : Nat)
    (p : AVPacket) (ret : Int) (hret : ret < 0)
    (h : (copyLoop nbOut tb fs i c ret0).events = pre ++ Event.write j p ret :: post) :
    (∀ e ∈ post, ∃ k, j < k ∧ e.input = some k) ∧
    ((copyLoop nbOut tb fs i c ret0).fault = false →
      ∀ k, j < k → k < i + fs.length → ∃ r, Event.read k r ∈ post) := by
  induction fs generalizing i c ret0 pre with
  | nil =>
    rw [copyLoop_nil] at h
    simp at h
  | cons f fs ih =>
    have hlen : i + (f :: fs).length = (i + 1) + fs.length := by
      simp only [List.length_cons]
      omega
    rw [hlen]
    cases hf : (packetLoop i f.nb_streams f.streams nbOut tb f.reads c).fault with
    | true =>
      rw [copyLoop_cons_fault _ _ _ _ _ _ _ hf] at h
      have hl := packetLoop_failed_write_last i f.nb_streams f.streams nbOut tb f.reads c
        pre post j p ret hret h
      rw [hf] at hl
      exact absurd hl.2 (by decide)
    | false =>
      rw [copyLoop_cons _ _ _ _ _ _ _ hf] at h ⊢
      rcases List.append_eq_append_iff.mp h with ⟨a, ha, hb⟩ | ⟨b, ha, hb⟩
      · -- the failed write lies in a later input
        exact ih _ _ _ a hb
      · -- the failed write lies in the loop of input i
        rcases b with _ | ⟨x, b⟩
        · simp only [List.nil_append] at hb
          exact ih _ _ _ [] hb.symm
        · simp only [List.cons_append, List.cons.injEq] at hb
          obtain ⟨hx, hpost⟩ := hb
          subst hx
          have hin := (packetLoop_events i f.nb_streams f.streams nbOut tb f.reads c
            (Event.write j p ret) (by rw [ha]; simp)).2
          have hji : j = i := by
            simp only [Event.input, Option.some.injEq] at hin
            exact hin
          have hb0 : b = [] := (packetLoop_failed_write_last i f.nb_streams f.streams nbOut tb
            f.reads c pre b j p ret hret ha).1
          subst hb0
          simp only [List.nil_append] at hpost
          rw [hpost]
          constructor
          · intro e he
            obtain ⟨_, k, hk, hek⟩ := copyLoop_events nbOut tb fs (i + 1) _ _ e he
            exact ⟨k, by omega, hek⟩
          · intro hok k hjk hk
            exact copyLoop_reads nbOut tb fs (i + 1) _ _ hok k (by omega) hk

theorem inputsOf_length (w : World) (n : Nat) : (inputsOf w n).length = n := by
  simp [inputsOf]

theorem inputsOf_succ (w : World) (n : Nat) :
    inputsOf w (n + 1) = inputsOf w n ++ [w.input n] := by
  simp [inputsOf, List.range_succ]

/-! ## Completion of the fill loop -/

theorem fillFrom_inside (argv : List String) (l : List Nat) (t : List String × List Bool)
    (h : ∀ i ∈ l, i < MAX_INPUT_NUM) : (fillFrom argv l t).isSome = true := by
  induction l generalizing t with
  | nil => rfl
  | cons i rest ih =>
    have hi : i < MAX_INPUT_NUM := h i (by simp)
    simp only [fillFrom, tableStore, hi, if_true]
    exact ih _ (fun j hj => h j (by simp [hj]))

theorem fillFrom_outside (argv : List String) (l : List Nat) (t : List String × List Bool)
    (h : ∃ i ∈ l, ¬ i < MAX_INPUT_NUM) : fillFrom argv l t = none := by
  induction l generalizing t with
  | nil =>
    obtain ⟨i, hi, _⟩ := h
    simp at hi
  | cons i rest ih =>
    by_cases hi : i < MAX_INPUT_NUM
    · simp only [fillFrom, tableStore, hi, if_true]
      apply ih
      obtain ⟨j, hj, hjn⟩ := h
      simp only [List.mem_cons] at hj
      rcases hj with hj | hj
      · subst hj
        exact absurd hi hjn
      · exact ⟨j, hj, hjn⟩
    · simp [fillFrom, tableStore, hi]

/-- The fill loop of lines 84-88 completes exactly when there are at most
`MAX_INPUT_NUM` inputs. -/
theorem fillTables_isSome_iff (argv : List String) :
    (fillTables argv).isSome = true ↔ argv.length - 2 ≤ MAX_INPUT_NUM := by
  constructor
  · intro h
    by_contra hn
    have hnone : fillTables argv = none := by
      apply fillFrom_outside
      refine ⟨MAX_INPUT_NUM, List.mem_range.mpr (by omega), by omega⟩
    rw [hnone] at h
    cases h
  · intro h
    apply fillFrom_inside
    intro i hi
    have := List.mem_range.mp hi
    omega

/-! ## The shapes of a run of `main` -/

theorem main_usage (argv : List String) (w : World) (h : argv.length < 4) :
    main argv w = { exit := some 1, trace := [Event.usage] } := by
  simp [main, h]

theorem main_fill_fault (argv : List String) (w : World) (h : 4 ≤ argv.length)
    (hfill : fillTables argv = none) :
    main argv w = { exit := none, trace := [] } := by
  have h4 : ¬ argv.length < 4 := by omega
  simp [main, h4, hfill]

theorem main_setup_fail (argv : List String) (w : World) (h : 4 ≤ argv.length)
    (hfill : (fillTables argv).isSome = true) (ret : Int)
    (hs : setup w (argv.length - 2) = Except.error ret) :
    main argv w = { exit := some (exitCode ret), trace := [] } := by
  have h4 : ¬ argv.length < 4 := by omega
  obtain ⟨t, ht⟩ := Option.isSome_iff_exists.mp hfill
  simp [main, h4, ht, hs]

theorem main_header_fail (argv : List String) (w : World) (h : 4 ≤ argv.length)
    (hfill : (fillTables argv).isSome = true) (r : Int)
    (hs : setup w (argv.length - 2) = Except.ok r) (hh : w.headerRet < 0) :
    main argv w
      = { exit := some (exitCode w.headerRet), trace := [Event.header w.headerRet] } := by
  have h4 : ¬ argv.length < 4 := by omega
  obtain ⟨t, ht⟩ := Option.isSome_iff_exists.mp hfill
  simp [main, h4, ht, hs, hh]

theorem main_copy_stray (argv : List String) (w : World) (h : 4 ≤ argv.length)
    (hfill : (fillTables argv).isSome = true) (r : Int)
    (hs : setup w (argv.length - 2) = Except.ok r) (hh : ¬ w.headerRet < 0)
    (hf : (copyLoop (w.input 0).nb_streams w.outTimeBase (inputsOf w (argv.length - 2)) 0
            { next_vpts := 0, next_apts := 0 } w.headerRet).fault = true) :
    main argv w
      = { exit := none
          trace := Event.header w.headerRet ::
            (copyLoop (w.input 0).nb_streams w.outTimeBase (inputsOf w (argv.length - 2)) 0
                    { next_vpts := 0, next_apts := 0 } w.headerRet).events } := by
  have h4 : ¬ argv.length < 4 := by omega
  obtain ⟨t, ht⟩ := Option.isSome_iff_exists.mp hfill
  simp [main, h4, ht, hs, hh, hf]

theorem main_copy (argv : List String) (w : World) (h : 4 ≤ argv.length)
    (hfill : (fillTables argv).isSome = true) (r : Int)
    (hs : setup w (argv.length - 2) = Except.ok r) (hh : ¬ w.headerRet < 0)
    (hf : (copyLoop (w.input 0).nb_streams w.outTimeBase (inputsOf w (argv.length - 2)) 0
            { next_vpts := 0, next_apts := 0 } w.headerRet).fault = false) :
    main argv w
      = { exit := some (exitCode
            (copyLoop (w.input 0).nb_streams w.outTimeBase (inputsOf w (argv.length - 2)) 0
                    { next_vpts := 0, next_apts := 0 } w.headerRet).ret)
          trace := Event.header w.headerRet ::
            ((copyLoop (w.input 0).nb_streams w.outTimeBase (inputsOf w (argv.length - 2)) 0
                    { next_vpts := 0, next_apts := 0 } w.headerRet).events
              ++ [Event.trailer w.trailerRet]) } := by
  have h4 : ¬ argv.length < 4 := by omega
  obtain ⟨t, ht⟩ := Option.isSome_iff_exists.mp hfill
  simp [main, h4, ht, hs, hh, hf]

/-- A run of `main` has one of five shapes: usage text only; nothing on the
sink (a store outside the input tables, or a failed setup call); a failed
header write only; a successful header followed by loop events and a stray
stream index; a successful header, loop events and the trailer. -/
theorem main_shapes (argv : List String) (w : World) :
    (main argv w).trace = [Event.usage] ∨
    (main argv w).trace = [] ∨
    (w.headerRet < 0 ∧ (main argv w).trace = [Event.header w.headerRet]) ∨
    (0 ≤ w.headerRet ∧ ∃ evs, (∀ e ∈ evs, e.inLoop = true) ∧
      (∀ pre j p ret post, evs = pre ++ Event.write j p ret :: post → ret < 0 →
        ∀ e ∈ post, ∃ k, j < k ∧ e.input = some k) ∧
      ((¬ IndicesInside (w.input 0).nb_streams (inputsOf w (argv.length - 2)) ∧
          (main argv w).trace = Event.header w.headerRet :: evs) ∨
       ((∀ pre j p ret post, evs = pre ++ Event.write j p ret :: post → ret < 0 →
          ∀ k, j < k → k < argv.length - 2 → ∃ r, Event.read k r ∈ post) ∧
        (main argv w).trace
          = Event.header w.headerRet :: (evs ++ [Event.trailer w.trailerRet])))) := by
  by_cases h : argv.length < 4
  · left
    rw [main_usage argv w h]
  · have h4 : 4 ≤ argv.length := by omega
    cases hfill : fillTables argv with
    | none =>
      right; left
      rw [main_fill_fault argv w h4 hfill]
    | some t =>
      have hfs : (fillTables argv).isSome = true := by rw [hfill]; rfl
      cases hs : setup w (argv.length - 2) with
      | error ret =>
        right; left
        rw [main_setup_fail argv w h4 hfs ret hs]
      | ok r =>
        by_cases hh : w.headerRet < 0
        · right; right; left
          refine ⟨hh, ?_⟩
          rw [main_header_fail argv w h4 hfs r hs hh]
        · right; right; right
          refine ⟨by omega,
            (copyLoop (w.input 0).nb_streams w.outTimeBase (inputsOf w (argv.length - 2)) 0
              { next_vpts := 0, next_apts := 0 } w.headerRet).events,
            fun e he => (copyLoop_events _ _ _ _ _ _ e he).1, ?_, ?_⟩
          · intro pre j p ret post hdec hret
            exact (copyLoop_after_failed_write _ _ _ _ _ _ pre post j p ret hret hdec).1
          · cases hf : (copyLoop (w.input 0).nb_streams w.outTimeBase
                (inputsOf w (argv.length - 2)) 0 { next_vpts := 0, next_apts := 0 }
                w.headerRet).fault with
            | true =>
              left
              refine ⟨?_, by rw [main_copy_stray argv w h4 hfs r hs hh hf]⟩
              intro hin
              rw [copyLoop_inside _ _ _ _ _ _ hin] at hf
              cases hf
            | false =>
              right
              refine ⟨?_, by rw [main_copy argv w h4 hfs r hs hh hf]⟩
              intro pre j p ret post hdec hret
              have hl := (copyLoop_after_failed_write _ _ _ _ _ _ pre post j p ret hret
                hdec).2 hf
              rw [inputsOf_length, Nat.zero_add] at hl
              exact hl

/-! ## The sink protocol and the failure paths -/

theorem inLoop_not_header (e : Event) (h : e.inLoop = true) : e.isHeader = false := by
  cases e <;> simp_all [Event.inLoop, Event.isHeader]

theorem inLoop_not_trailer (e : Event) (h : e.inLoop = true) : e.isTrailer = false := by
  cases e <;> simp_all [Event.inLoop, Event.isTrailer]

/-- Where a packet write sits in the trace of a run that reached the copy
loop: after the header, inside the loop events. -/
theorem stray_trace_split (hret : Int) (evs pre post : List Event) (e : Event)
    (he : e.isWrite = true) (h : Event.header hret :: evs = pre ++ e :: post) :
    ∃ pre1, pre = Event.header hret :: pre1 ∧ evs = pre1 ++ e :: post := by
  rcases pre with _ | ⟨x, pre1⟩
  · simp only [List.nil_append, List.cons.injEq] at h
    rw [← h.1] at he
    simp [Event.isWrite] at he
  · simp only [List.cons_append, List.cons.injEq] at h
    exact ⟨pre1, by rw [h.1], h.2⟩

/-- Where a packet write sits in the trace of a run that completed the copy
loop: after the header, inside the loop events, before the trailer. -/
theorem copy_trace_split (hret tret : Int) (evs pre post : List Event) (e : Event)
    (he : e.isWrite = true)
    (h : Event.header hret :: (evs ++ [Event.trailer tret]) = pre ++ e :: post) :
    ∃ pre1 post1, pre = Event.header hret :: pre1 ∧ evs = pre1 ++ e :: post1 ∧
      post = post1 ++ [Event.trailer tret] := by
  obtain ⟨pre1, hpre, h⟩ := stray_trace_split hret _ pre post e he h
  rcases List.append_eq_append_iff.mp h with ⟨a, ha, hb⟩ | ⟨b, ha, hb⟩
  · rcases a with _ | ⟨y, a⟩
    · simp only [List.nil_append, List.cons.injEq] at hb
      rw [← hb.1] at he
      simp [Event.isWrite] at he
    · simp at hb
  · rcases b with _ | ⟨y, b⟩
    · simp only [List.nil_append, List.cons.injEq] at hb
      rw [hb.1] at he
      simp [Event.isWrite] at he
    · simp only [List.cons_append, List.cons.injEq] at hb
      obtain ⟨hy, hpost⟩ := hb
      subst hy
      exact ⟨pre1, b, hpre, ha, hpost⟩

theorem no_write_split (t pre post : List Event) (e : Event) (he : e.isWrite = true)
    (hno : ∀ x ∈ t, x.isWrite = false) (h : t = pre ++ e :: post) : False := by
  have hmem : e ∈ t := by rw [h]; simp
  rw [hno e hmem] at he
  exact Bool.false_ne_true he

/-- C8, as the claim states it, fails in the run `strayWorld`: the header
write succeeds, input 0 then delivers a packet of stream 5, which the output
context does not have, and the run ends at line 169 without a trailer. -/
theorem C8_counterexample :
    main twoInputs strayWorld
      = { exit := none, trace := [Event.header 0, Event.read 0 0] } ∧
    (∃ h ∈ (main twoInputs strayWorld).trace, h.isHeaderOk = true) ∧
    ((main twoInputs strayWorld).trace.filter Event.isTrailer).length = 0 ∧
    ¬ TrailerOnceAfterPackets (main twoInputs strayWorld).trace := by
  have hh : ∃ h ∈ (main twoInputs strayWorld).trace, h.isHeaderOk = true :=
    ⟨Event.header 0, by decide, rfl⟩
  refine ⟨by decide, hh, by decide, ?_⟩
  intro hclaim
  exact absurd (hclaim hh).1 (by decide)

/-- C8, amended: in every run no packet is written unless a header write has
succeeded before it and the header is written at most once; and in every run
in which every delivered packet carries a stream index inside the stream
tables of its input and of the output, whenever the header write succeeded the
trailer is written exactly once and after every packet write, whatever the
number of inputs and however each input's packet loop ends. -/
theorem C8_sink_protocol (argv : List String) (w : World) :
    PacketsAfterHeader (main argv w).trace ∧
    HeaderAtMostOnce (main argv w).trace ∧
    (IndicesInside (w.input 0).nb_streams (inputsOf w (argv.length - 2)) →
      TrailerOnceAfterPackets (main argv w).trace) := by
  rcases main_shapes argv w with h | h | ⟨hneg, h⟩ | ⟨hpos, evs, hin, _, hshape⟩
  · rw [h]
    refine ⟨?_, by simp [HeaderAtMostOnce, Event.isHeader], fun _ => ?_⟩
    · intro pre e post hdec he
      exact (no_write_split _ pre post e he (by simp [Event.isWrite]) hdec).elim
    · intro hh
      simp [Event.isHeaderOk] at hh
  · rw [h]
    refine ⟨?_, by simp [HeaderAtMostOnce], fun _ => ?_⟩
    · intro pre e post hdec he
      exact (no_write_split _ pre post e he (by simp) hdec).elim
    · intro hh
      simp at hh
  · rw [h]
    refine ⟨?_, by simp [HeaderAtMostOnce, Event.isHeader], fun _ => ?_⟩
    · intro pre e post hdec he
      exact (no_write_split _ pre post e he (by simp [Event.isWrite]) hdec).elim
    · intro hh
      simp only [List.mem_singleton, exists_eq_left, Event.isHeaderOk, decide_eq_true_eq] at hh
      omega
  · have hnoH : evs.filter Event.isHeader = [] :=
      List.filter_eq_nil_iff.mpr (fun e he => by simp [inLoop_not_header e (hin e he)])
    have hnoT : evs.filter Event.isTrailer = [] :=
      List.filter_eq_nil_iff.mpr (fun e he => by simp [inLoop_not_trailer e (hin e he)])
    rcases hshape with ⟨hstray, h⟩ | ⟨_, h⟩
    · rw [h]
      refine ⟨?_, ?_, fun hinside => absurd hinside hstray⟩
      · intro pre e post hdec he
        obtain ⟨pre1, hpre, _⟩ := stray_trace_split _ evs pre post e he hdec
        refine ⟨Event.header w.headerRet, by rw [hpre]; simp, ?_⟩
        simp [Event.isHeaderOk, hpos]
      · simp [HeaderAtMostOnce, List.filter_cons, hnoH, Event.isHeader]
    · rw [h]
      refine ⟨?_, ?_, fun _ => ?_⟩
      · intro pre e post hdec he
        obtain ⟨pre1, post1, hpre, _, _⟩ := copy_trace_split _ _ evs pre post e he hdec
        refine ⟨Event.header w.headerRet, by rw [hpre]; simp, ?_⟩
        simp [Event.isHeaderOk, hpos]
      · simp [HeaderAtMostOnce, List.filter_cons, List.filter_append, hnoH, Event.isHeader]
      · intro _
        refine ⟨by simp [List.filter_cons, List.filter_append, hnoT, Event.isTrailer], ?_⟩
        intro pre e post hdec he
        obtain ⟨pre1, post1, _, _, hpost⟩ := copy_trace_split _ _ evs pre post e he hdec
        exact ⟨Event.trailer w.trailerRet, by rw [hpost]; simp, rfl⟩

theorem C8_sink_protocol_witness :
    IndicesInside (writeFailWorld.input 0).nb_streams (inputsOf writeFailWorld (twoInputs.length - 2)) ∧
    (∃ h ∈ (main twoInputs writeFailWorld).trace, h.isHeaderOk = true) ∧
    ((main twoInputs writeFailWorld).trace.filter Event.isHeader).length ≤ 1 ∧
    ((main twoInputs writeFailWorld).trace.filter Event.isTrailer).length = 1 :=
  ⟨by unfold IndicesInside; decide,
   ⟨Event.header 0, by decide, rfl⟩,
   (C8_sink_protocol twoInputs writeFailWorld).2.1,
   ((C8_sink_protocol twoInputs writeFailWorld).2.2 (by unfold IndicesInside; decide)
      ⟨Event.header 0, by decide, rfl⟩).1⟩

/-- C3, as the claim states it, fails.  In `writeFailWorld` the write of the
packet of input 0 fails, and `main` then reads and writes the packet of
input 1 before it writes the trailer.  In `writeFailStrayWorld` the same write
fails, input 1 then delivers a packet of a stream the output context does not
have, and the run ends at line 169 without a trailer. -/
theorem C3_counterexample :
    (main twoInputs writeFailWorld).trace
      = writeFailBefore
        ++ Event.write 0 { stream_index := 0, pts := 0, dts := 0, duration := 1, pos := -1 } (-5)
        :: writeFailAfter ∧
    Event.read 1 0 ∈ writeFailAfter ∧
    Event.write 1 { stream_index := 0, pts := 1, dts := 1, duration := 1, pos := -1 } 0
      ∈ writeFailAfter ∧
    ¬ WriteFailureEndsCopy (main twoInputs writeFailWorld).trace ∧
    (main twoInputs writeFailStrayWorld).trace
      = writeFailBefore
        ++ Event.write 0 { stream_index := 0, pts := 0, dts := 0, duration := 1, pos := -1 } (-5)
        :: [Event.read 1 0] ∧
    ¬ WriteFailureEndsCopy (main twoInputs writeFailStrayWorld).trace := by
  have htrace : (main twoInputs writeFailWorld).trace
      = writeFailBefore
        ++ Event.write 0 { stream_index := 0, pts := 0, dts := 0, duration := 1, pos := -1 } (-5)
        :: writeFailAfter := by decide
  have hstray : (main twoInputs writeFailStrayWorld).trace
      = writeFailBefore
        ++ Event.write 0 { stream_index := 0, pts := 0, dts := 0, duration := 1, pos := -1 } (-5)
        :: [Event.read 1 0] := by decide
  refine ⟨htrace, by decide, by decide, ?_, hstray, ?_⟩
  · intro hclaim
    have h := (hclaim writeFailBefore 0 _ (-5) writeFailAfter htrace (by decide)).1
      (Event.read 1 0) (by decide) 1 (by decide)
    exact h rfl
  · intro hclaim
    obtain ⟨x, hx, hxt⟩ := (hclaim writeFailBefore 0 _ (-5) [Event.read 1 0] hstray
      (by decide)).2
    simp only [List.mem_singleton] at hx
    subst hx
    exact absurd hxt (by decide)

/-- C3, amended: in every run, if writing a packet of input i fails, nothing
more is read from, stamped or written for input i; and in every run in which
every delivered packet carries a stream index inside the stream tables of its
input and of the output, every input after i is still read (the copy loop goes
on with input i+1) and the trailer write is still performed afterwards. -/
theorem C3_write_failure_ends_input (argv : List String) (w : World) :
    (∀ pre i p ret post, (main argv w).trace = pre ++ Event.write i p ret :: post → ret < 0 →
      ∀ e ∈ post, e.input ≠ some i) ∧
    (IndicesInside (w.input 0).nb_streams (inputsOf w (argv.length - 2)) →
      WriteFailureEndsInput (argv.length - 2) (main argv w).trace) := by
  have hpart : ∀ pre i p ret post,
      (main argv w).trace = pre ++ Event.write i p ret :: post → ret < 0 →
      ∀ e ∈ post, e.input ≠ some i := by
    intro pre i p ret post hdec hret
    have hw : (Event.write i p ret).isWrite = true := rfl
    rcases main_shapes argv w with h | h | ⟨_, h⟩ | ⟨_, evs, hin, hafter, hshape⟩
    · rw [h] at hdec
      exact (no_write_split _ pre post _ hw (by simp [Event.isWrite]) hdec).elim
    · rw [h] at hdec
      exact (no_write_split _ pre post _ hw (by simp) hdec).elim
    · rw [h] at hdec
      exact (no_write_split _ pre post _ hw (by simp [Event.isWrite]) hdec).elim
    · have hlater : ∀ post1 pre1, evs = pre1 ++ Event.write i p ret :: post1 →
          ∀ e ∈ post1, e.input ≠ some i := by
        intro post1 pre1 hevs e he
        obtain ⟨k, hk, hek⟩ := hafter pre1 i p ret post1 hevs hret e he
        rw [hek]
        intro hki
        simp only [Option.some.injEq] at hki
        omega
      rcases hshape with ⟨_, h⟩ | ⟨_, h⟩
      · rw [h] at hdec
        obtain ⟨pre1, _, hevs⟩ := stray_trace_split _ evs pre post _ hw hdec
        exact hlater post pre1 hevs
      · rw [h] at hdec
        obtain ⟨pre1, post1, _, hevs, hpost⟩ := copy_trace_split _ _ evs pre post _ hw hdec
        intro e he
        rw [hpost, List.mem_append, List.mem_singleton] at he
        rcases he with he | he
        · exact hlater post1 pre1 hevs e he
        · subst he
          simp [Event.input]
  refine ⟨hpart, ?_⟩
  intro hinside pre i p ret post hdec hret
  refine ⟨hpart pre i p ret post hdec hret, ?_⟩
  have hw : (Event.write i p ret).isWrite = true := rfl
  rcases main_shapes argv w with h | h | ⟨_, h⟩ | ⟨_, evs, hin, hafter, hshape⟩
  · rw [h] at hdec
    exact (no_write_split _ pre post _ hw (by simp [Event.isWrite]) hdec).elim
  · rw [h] at hdec
    exact (no_write_split _ pre post _ hw (by simp) hdec).elim
  · rw [h] at hdec
    exact (no_write_split _ pre post _ hw (by simp [Event.isWrite]) hdec).elim
  · rcases hshape with ⟨hstray, _⟩ | ⟨hreads, h⟩
    · exact absurd hinside hstray
    · rw [h] at hdec
      obtain ⟨pre1, post1, _, hevs, hpost⟩ := copy_trace_split _ _ evs pre post _ hw hdec
      refine ⟨?_, Event.trailer w.trailerRet, by rw [hpost]; simp, rfl⟩
      intro k hik hk
      obtain ⟨r, hr⟩ := hreads pre1 i p ret post1 hevs hret k hik hk
      exact ⟨r, by rw [hpost]; exact List.mem_append.mpr (Or.inl hr)⟩

theorem C3_write_failure_ends_input_witness :
    IndicesInside (writeFailWorld.input 0).nb_streams
      (inputsOf writeFailWorld (twoInputs.length - 2)) ∧
    (main twoInputs writeFailWorld).trace
      = writeFailBefore
        ++ Event.write 0 { stream_index := 0, pts := 0, dts := 0, duration := 1, pos := -1 } (-5)
        :: writeFailAfter ∧
    (-5 : Int) < 0 ∧
    (∀ e ∈ writeFailAfter, e.input ≠ some 0) ∧
    (∀ k, 0 < k → k < twoInputs.length - 2 → ∃ r, Event.read k r ∈ writeFailAfter) ∧
    ∃ x ∈ writeFailAfter, x.isTrailer = true :=
  ⟨by unfold IndicesInside; decide, by decide, by decide,
   (C3_write_failure_ends_input twoInputs writeFailWorld).2 (by unfold IndicesInside; decide)
     writeFailBefore 0
     { stream_index := 0, pts := 0, dts := 0, duration := 1, pos := -1 } (-5) writeFailAfter
     (by decide) (by decide)⟩

/-! ## Exit code -/

theorem exitCode_zero_iff (ret : Int) : exitCode ret = 0 ↔ ret = AVERROR_EOF ∨ 0 ≤ ret := by
  unfold exitCode
  by_cases h : ret < 0 ∧ ret ≠ AVERROR_EOF
  · rw [if_pos h]
    constructor
    · intro h1
      exact absurd h1 (by decide)
    · rintro (h1 | h1)
      · exact absurd h1 h.2
      · omega
  · rw [if_neg h]
    constructor
    · intro _
      by_cases he : ret = AVERROR_EOF
      · exact Or.inl he
      · right
        by_contra hn
        exact h ⟨by omega, he⟩
    · intro _
      rfl

theorem exitCode_one_iff (ret : Int) : exitCode ret = 1 ↔ ¬ (ret = AVERROR_EOF ∨ 0 ≤ ret) := by
  rw [← exitCode_zero_iff]
  unfold exitCode
  by_cases h : ret < 0 ∧ ret ≠ AVERROR_EOF
  · simp [h]
  · simp [h]

/-- Once the fill loop, setup and the header write have succeeded and every
delivered stream index is inside the tables, `main` returns the exit code of
the value of `ret` that ended the `while (1)` of the last input. -/
theorem main_exit_after_copy (argv : List String) (w : World) (r : Int)
    (hmin : 4 ≤ argv.length) (hfill : (fillTables argv).isSome = true)
    (hsetup : setup w (argv.length - 2) = Except.ok r) (hheader : 0 ≤ w.headerRet)
    (hinside : IndicesInside (w.input 0).nb_streams (inputsOf w (argv.length - 2))) :
    (main argv w).exit = some (exitCode (loopEnd (w.input (argv.length - 3)).reads)) := by
  rw [main_copy argv w hmin hfill r hsetup (by omega) (copyLoop_inside _ _ _ _ _ _ hinside)]
  have hn : argv.length - 2 = (argv.length - 3) + 1 := by omega
  rw [hn, inputsOf_succ] at hinside ⊢
  simp only [copyLoop_ret_last _ _ _ _ _ _ _ hinside]

/-- C10, as the claim states it, fails in the run `strayWorld`: the fill
loop, setup and the header write succeed and the last input would end its
loop with AVERROR_EOF, but input 0 delivers a packet of a stream the output
context does not have and the run ends at line 169: `main` returns neither 0
nor 1.  With eleven inputs the run ends in the fill loop of line 86, before
the setup calls that would all have succeeded. -/
theorem C10_counterexample :
    (fillTables twoInputs).isSome = true ∧
    setup strayWorld (twoInputs.length - 2) = Except.ok 0 ∧
    0 ≤ strayWorld.headerRet ∧
    (packetLoop 1 (strayWorld.input 1).nb_streams (strayWorld.input 1).streams
        (strayWorld.input 0).nb_streams strayWorld.outTimeBase (strayWorld.input 1).reads
        { next_vpts := 0, next_apts := 0 }).ret = AVERROR_EOF ∧
    (main twoInputs strayWorld).exit = none ∧
    (main twoInputs strayWorld).exit ≠ some 0 ∧
    (main twoInputs strayWorld).exit ≠ some 1 ∧
    fillTables elevenInputs = none ∧
    setup writeFailWorld (elevenInputs.length - 2) = Except.ok 0 ∧
    main elevenInputs writeFailWorld = { exit := none, trace := [] } :=
  ⟨by decide, rfl, by decide, by decide, by decide, by decide, by decide, by decide, rfl,
   by decide⟩

/-- C10, amended: in every run in which the fill loop of the input tables,
setup and the header write succeed and every delivered packet carries a stream
index inside the stream tables of its input and of the output, the exit code
is 0 exactly when the `while (1)` of the last input ended with AVERROR_EOF (or
a non-negative value of `ret`) and 1 otherwise; the value depends on the
answers of the library for the last input only, so neither the way earlier
inputs ended, nor the state they left, nor the result of the trailer write
changes it. -/
theorem C10_exit_code_from_last_input (argv : List String) (w : World) (r : Int)
    (hmin : 4 ≤ argv.length) (hfill : (fillTables argv).isSome = true)
    (hsetup : setup w (argv.length - 2) = Except.ok r) (hheader : 0 ≤ w.headerRet)
    (hinside : IndicesInside (w.input 0).nb_streams (inputsOf w (argv.length - 2))) :
    (∀ c : Clocks,
      ((main argv w).exit = some 0 ↔
        (packetLoop (argv.length - 3) (w.input (argv.length - 3)).nb_streams
            (w.input (argv.length - 3)).streams (w.input 0).nb_streams w.outTimeBase
            (w.input (argv.length - 3)).reads c).ret = AVERROR_EOF ∨
        0 ≤ (packetLoop (argv.length - 3) (w.input (argv.length - 3)).nb_streams
            (w.input (argv.length - 3)).streams (w.input 0).nb_streams w.outTimeBase
            (w.input (argv.length - 3)).reads c).ret) ∧
      ((main argv w).exit = some 1 ↔
        ¬ ((packetLoop (argv.length - 3) (w.input (argv.length - 3)).nb_streams
            (w.input (argv.length - 3)).streams (w.input 0).nb_streams w.outTimeBase
            (w.input (argv.length - 3)).reads c).ret = AVERROR_EOF ∨
          0 ≤ (packetLoop (argv.length - 3) (w.input (argv.length - 3)).nb_streams
            (w.input (argv.length - 3)).streams (w.input 0).nb_streams w.outTimeBase
            (w.input (argv.length - 3)).reads c).ret))) ∧
    (∀ (w2 : World) (r2 : Int), setup w2 (argv.length - 2) = Except.ok r2 →
      0 ≤ w2.headerRet →
      IndicesInside (w2.input 0).nb_streams (inputsOf w2 (argv.length - 2)) →
      (w2.input (argv.length - 3)).reads = (w.input (argv.length - 3)).reads →
      (main argv w2).exit = (main argv w).exit) := by
  have hexit := main_exit_after_copy argv w r hmin hfill hsetup hheader hinside
  constructor
  · intro c
    have hlast : ∀ x ∈ (w.input (argv.length - 3)).reads, 0 ≤ x.ret →
        x.pkt.stream_index < (w.input (argv.length - 3)).nb_streams ∧
        x.pkt.stream_index < (w.input 0).nb_streams := by
      apply hinside
      simp only [inputsOf, List.mem_map, List.mem_range]
      exact ⟨argv.length - 3, by omega, rfl⟩
    rw [(packetLoop_inside _ _ _ _ _ _ c hlast).2, hexit]
    simp only [Option.some.injEq]
    exact ⟨exitCode_zero_iff _, exitCode_one_iff _⟩
  · intro w2 r2 hs2 hh2 hin2 hreads
    rw [hexit, main_exit_after_copy argv w2 r2 hmin hfill hs2 hh2 hin2, hreads]

theorem C10_exit_code_from_last_input_witness :
    4 ≤ twoInputs.length ∧ (fillTables twoInputs).isSome = true ∧
    setup writeFailWorld (twoInputs.length - 2) = Except.ok 0 ∧
    0 ≤ writeFailWorld.headerRet ∧
    IndicesInside (writeFailWorld.input 0).nb_streams
      (inputsOf writeFailWorld (twoInputs.length - 2)) ∧
    ((main twoInputs writeFailWorld).exit = some 0 ↔
      (packetLoop (twoInputs.length - 3) (writeFailWorld.input (twoInputs.length - 3)).nb_streams
          (writeFailWorld.input (twoInputs.length - 3)).streams
          (writeFailWorld.input 0).nb_streams writeFailWorld.outTimeBase
          (writeFailWorld.input (twoInputs.length - 3)).reads
          { next_vpts := 1, next_apts := 0 }).ret = AVERROR_EOF ∨
      0 ≤ (packetLoop (twoInputs.length - 3)
          (writeFailWorld.input (twoInputs.length - 3)).nb_streams
          (writeFailWorld.input (twoInputs.length - 3)).streams
          (writeFailWorld.input 0).nb_streams writeFailWorld.outTimeBase
          (writeFailWorld.input (twoInputs.length - 3)).reads
          { next_vpts := 1, next_apts := 0 }).ret) :=
  ⟨by decide, by decide, rfl, by decide, by unfold IndicesInside; decide,
   ((C10_exit_code_from_last_input twoInputs writeFailWorld 0 (by decide) (by decide) rfl
      (by decide) (by unfold IndicesInside; decide)).1
      { next_vpts := 1, next_apts := 0 }).1⟩

/-! ## Setup failures -/

theorem main_trace_no_usage (argv : List String) (w : World) (hmin : 4 ≤ argv.length) :
    Event.usage ∉ (main argv w).trace := by
  intro hmem
  have hloop : ∀ evs : List Event, (∀ e ∈ evs, e.inLoop = true) → Event.usage ∉ evs := by
    intro evs hin hu
    have := hin _ hu
    simp [Event.inLoop] at this
  cases hfill : fillTables argv with
  | none =>
    rw [main_fill_fault argv w hmin hfill] at hmem
    simp at hmem
  | some t =>
    have hfs : (fillTables argv).isSome = true := by rw [hfill]; rfl
    cases hs : setup w (argv.length - 2) with
    | error ret =>
      rw [main_setup_fail argv w hmin hfs ret hs] at hmem
      simp at hmem
    | ok r =>
      by_cases hh : w.headerRet < 0
      · rw [main_header_fail argv w hmin hfs r hs hh] at hmem
        simp at hmem
      · cases hf : (copyLoop (w.input 0).nb_streams w.outTimeBase
            (inputsOf w (argv.length - 2)) 0 { next_vpts := 0, next_apts := 0 }
            w.headerRet).fault with
        | true =>
          rw [main_copy_stray argv w hmin hfs r hs hh hf] at hmem
          simp only [List.mem_cons] at hmem
          rcases hmem with hmem | hmem
          · cases hmem
          · exact hloop _ (fun e he => (copyLoop_events _ _ _ _ _ _ e he).1) hmem
        | false =>
          rw [main_copy argv w hmin hfs r hs hh hf] at hmem
          simp only [List.mem_cons, List.mem_append, List.mem_singleton, List.not_mem_nil,
            or_false] at hmem
          rcases hmem with hmem | hmem | hmem
          · cases hmem
          · exact hloop _ (fun e he => (copyLoop_events _ _ _ _ _ _ e he).1) hmem
          · cases hmem

/-- With more than `MAX_INPUT_NUM` inputs the run ends in the fill loop, before
any call on an input or on the sink. -/
theorem main_too_many_inputs (argv : List String) (w : World)
    (h : MAX_INPUT_NUM + 2 < argv.length) :
    main argv w = { exit := none, trace := [] } := by
  have hmin : 4 ≤ argv.length := by unfold MAX_INPUT_NUM at h; omega
  cases hfill : fillTables argv with
  | none => exact main_fill_fault argv w hmin hfill
  | some t =>
    have hfs : (fillTables argv).isSome = true := by rw [hfill]; rfl
    have := (fillTables_isSome_iff argv).mp hfs
    omega

/-- A failure anywhere in setup, or of the header write, leaves the sink
without a single packet write. -/
theorem setup_failure_writes_no_packet (argv : List String) (w : World)
    (hmin : 4 ≤ argv.length)
    (hfail : (∃ ret, setup w (argv.length - 2) = Except.error ret) ∨ w.headerRet < 0) :
    ∀ e ∈ (main argv w).trace, e.isWrite = false := by
  cases hfill : fillTables argv with
  | none =>
    rw [main_fill_fault argv w hmin hfill]
    simp
  | some t =>
    have hfs : (fillTables argv).isSome = true := by rw [hfill]; rfl
    cases hs : setup w (argv.length - 2) with
    | error ret =>
      rw [main_setup_fail argv w hmin hfs ret hs]
      simp
    | ok r =>
      rcases hfail with ⟨ret, hret⟩ | hh
      · rw [hs] at hret
        cases hret
      · rw [main_header_fail argv w hmin hfs r hs hh]
        simp [Event.isWrite]

theorem openInputs_ok_nonneg (fs : List InputFile) (ret r : Int) (h0 : 0 ≤ ret)
    (h : openInputs fs ret = Except.ok r) : 0 ≤ r := by
  induction fs generalizing ret with
  | nil =>
    simp only [openInputs, Except.ok.injEq] at h
    omega
  | cons f fs ih =>
    by_cases ho : f.openRet < 0
    · simp [openInputs, ho] at h
    · by_cases hp : f.probeRet < 0
      · simp [openInputs, ho, hp] at h
      · simp only [openInputs, ho, hp, if_false] at h
        exact ih f.probeRet (by omega) h

theorem buildSchema_copy_failure (w : World) (l : List Nat) (ret : Int)
    (halloc : ∀ i ∈ l, w.newStreamOk i = true) (hcopy : ∃ i ∈ l, w.copyRet i < 0) :
    buildSchema w l ret = Except.error ret := by
  induction l with
  | nil =>
    obtain ⟨i, hi, _⟩ := hcopy
    simp at hi
  | cons i rest ih =>
    have hi : w.newStreamOk i = true := halloc i (by simp)
    by_cases hc : w.copyRet i < 0
    · simp [buildSchema, hi, hc]
    · simp only [buildSchema, hi, hc, if_false, Bool.true_eq_false]
      apply ih
      · intro j hj
        exact halloc j (by simp [hj])
      · obtain ⟨j, hj, hjc⟩ := hcopy
        simp only [List.mem_cons] at hj
        rcases hj with hj | hj
        · subst hj
          exact absurd hjc hc
        · exact ⟨j, hj, hjc⟩

/-- The exit code when `avcodec_copy_context` fails: if the fill loop
completes, every input opens and probes, the output context and every output
stream are allocated, and the copy of the codec context fails for some stream
of input 0, `main` returns 0 and makes no call on the sink. -/
theorem codec_copy_failure_exit_zero (argv : List String) (w : World) (hmin : 4 ≤ argv.length)
    (hfill : (fillTables argv).isSome = true)
    (hopen : ∀ i, i < argv.length - 2 →
      0 ≤ (w.input i).openRet ∧ 0 ≤ (w.input i).probeRet)
    (hctx : w.outCtxOk = true)
    (halloc : ∀ i, i < (w.input 0).nb_streams → w.newStreamOk i = true)
    (hcopy : ∃ i, i < (w.input 0).nb_streams ∧ w.copyRet i < 0) :
    main argv w = { exit := some 0, trace := [] } := by
  have hall : ∀ (fs : List InputFile) (ret : Int),
      (∀ f ∈ fs, 0 ≤ f.openRet ∧ 0 ≤ f.probeRet) → ∃ r, openInputs fs ret = Except.ok r := by
    intro fs
    induction fs with
    | nil => intro ret _; exact ⟨ret, rfl⟩
    | cons f fs ih =>
      intro ret hf
      have h1 := hf f (by simp)
      have ho : ¬ f.openRet < 0 := by omega
      have hp : ¬ f.probeRet < 0 := by omega
      simp only [openInputs, ho, hp, if_false]
      exact ih _ (fun g hg => hf g (by simp [hg]))
  obtain ⟨r, hr⟩ := hall (inputsOf w (argv.length - 2)) 0 (by
    intro f hf
    simp only [inputsOf, List.mem_map, List.mem_range] at hf
    obtain ⟨i, hi, rfl⟩ := hf
    exact hopen i hi)
  have hr0 : 0 ≤ r := openInputs_ok_nonneg _ 0 r (le_refl 0) hr
  have hb : buildSchema w (List.range (w.input 0).nb_streams) r = Except.error r :=
    buildSchema_copy_failure w _ r
      (fun i hi => halloc i (List.mem_range.mp hi))
      (by
        obtain ⟨i, hi, hc⟩ := hcopy
        exact ⟨i, List.mem_range.mpr hi, hc⟩)
  have hs : setup w (argv.length - 2) = Except.error r := by
    simp [setup, hr, hctx, hb]
  rw [main_setup_fail argv w hmin hfill r hs]
  have : exitCode r = 0 := (exitCode_zero_iff r).mpr (Or.inr hr0)
  rw [this]

/-- C4, the failing input: two inputs that open and probe with result 0, an
output context and output streams that are allocated, and
`avcodec_copy_context` returning -22.  `main` jumps to `end` with `ret` still
holding the 0 of the last `avformat_find_stream_info`, and returns 0 where the
claim requires 1; no call on the sink is made.  The neighbouring failure of
lines 121-125, a missing output stream, sets `ret` first and returns 1. -/
theorem C4_codec_copy_failure_returns_zero :
    copyFailWorld.copyRet 0 < 0 ∧
    setup copyFailWorld (4 - 2) = Except.error 0 ∧
    main twoInputs copyFailWorld = { exit := some 0, trace := [] } ∧
    (main twoInputs copyFailWorld).exit ≠ some 1 ∧
    main twoInputs allocFailWorld = { exit := some 1, trace := [] } :=
  ⟨by decide, rfl, by decide, by decide, by decide⟩

/-! ## The capacity of the input tables -/

/-- C9, as the claim states it, fails: with eleven input paths the fill loop
reaches index 10, which lies outside tables of `MAX_INPUT_NUM` = 10 slots. -/
theorem C9_counterexample :
    4 ≤ elevenInputs.length ∧
    elevenInputs.length - 2 = 11 ∧
    10 ∈ tableIndices elevenInputs.length ∧
    ¬ (10 < MAX_INPUT_NUM) ∧
    fillTables elevenInputs = none := by
  decide

/-- C9, amended: for every argument vector with n input paths and one output
path where 2 ≤ n ≤ MAX_INPUT_NUM = 10, the invocation is not rejected as a
usage error, every index used on the input tables lies inside them, and the
fill loop completes. -/
theorem C9_up_to_ten_inputs (argv : List String) (w : World) (hmin : 4 ≤ argv.length)
    (hmax : argv.length ≤ MAX_INPUT_NUM + 2) :
    Event.usage ∉ (main argv w).trace ∧
    (∀ i ∈ tableIndices argv.length, i < MAX_INPUT_NUM) ∧
    (fillTables argv).isSome = true := by
  have hidx : ∀ i ∈ List.range (argv.length - 2), i < MAX_INPUT_NUM := by
    intro i hi
    have := List.mem_range.mp hi
    omega
  exact ⟨main_trace_no_usage _ w hmin, hidx, fillFrom_inside argv _ _ hidx⟩

theorem C9_up_to_ten_inputs_witness :
    4 ≤ twoInputs.length ∧ twoInputs.length ≤ MAX_INPUT_NUM + 2 ∧
    Event.usage ∉ (main twoInputs writeFailWorld).trace ∧
    (∀ i ∈ tableIndices twoInputs.length, i < MAX_INPUT_NUM) ∧
    (fillTables twoInputs).isSome = true :=
  ⟨by decide, by decide, C9_up_to_ten_inputs twoInputs writeFailWorld (by decide) (by decide)⟩

/-! ## The synthesis step (lines 171-179) -/

theorem addU32_lt (next : Nat) (duration : Int) : addU32 next duration < UINT32_MOD := by
  unfold addU32 UINT32_MOD
  have h := Int.emod_lt_of_pos ((next : Int) + duration) (show (0 : Int) < 4294967296 by decide)
  have h0 := Int.emod_nonneg ((next : Int) + duration) (show (4294967296 : Int) ≠ 0 by decide)
  push_cast
  omega

theorem addU32_cast (next : Nat) (duration : Int) :
    ((addU32 next duration : Nat) : Int) = ((next : Int) + duration) % 4294967296 := by
  unfold addU32 UINT32_MOD
  have h0 := Int.emod_nonneg ((next : Int) + duration) (show (4294967296 : Int) ≠ 0 by decide)
  push_cast
  omega

theorem addU32_exact (next : Nat) (duration : Int) (h0 : 0 ≤ (next : Int) + duration)
    (h1 : (next : Int) + duration < 4294967296) :
    ((addU32 next duration : Nat) : Int) = (next : Int) + duration := by
  rw [addU32_cast]
  exact Int.emod_eq_of_lt h0 h1

/-- C5, as the claim states it, fails: a subtitle packet read with pts = dts =
100 and duration 5 while the counters are (0, 7) leaves the step with pts 7 and
the second counter at 12. -/
theorem C5_counterexample :
    AVMediaType.SUBTITLE ≠ AVMediaType.VIDEO ∧ AVMediaType.SUBTITLE ≠ AVMediaType.AUDIO ∧
    (synthesize { next_vpts := 0, next_apts := 7 } AVMediaType.SUBTITLE
        (mkPacket 2 100 100 5)).1.pts = 7 ∧
    (synthesize { next_vpts := 0, next_apts := 7 } AVMediaType.SUBTITLE
        (mkPacket 2 100 100 5)).1.pts ≠ (mkPacket 2 100 100 5).pts ∧
    (synthesize { next_vpts := 0, next_apts := 7 } AVMediaType.SUBTITLE
        (mkPacket 2 100 100 5)).2 = { next_vpts := 0, next_apts := 12 } ∧
    (synthesize { next_vpts := 0, next_apts := 7 } AVMediaType.SUBTITLE
        (mkPacket 2 100 100 5)).2 ≠ { next_vpts := 0, next_apts := 7 } := by
  decide

/-- C5, amended: a packet whose stream is neither video nor audio goes through
the `else` branch exactly like an audio packet: pts and dts become the current
value of `next_apts`, `next_apts` advances by the duration modulo 2^32,
`next_vpts` and the other packet fields stay as they were. -/
theorem C5_other_classes_use_audio_clock (c : Clocks) (ty : AVMediaType) (pkt : AVPacket)
    (hv : ty ≠ AVMediaType.VIDEO) (ha : ty ≠ AVMediaType.AUDIO) :
    synthesize c ty pkt = synthesize c AVMediaType.AUDIO pkt ∧
    (synthesize c ty pkt).1.pts = (c.next_apts : Int) ∧
    (synthesize c ty pkt).1.dts = (c.next_apts : Int) ∧
    (synthesize c ty pkt).1.duration = pkt.duration ∧
    (synthesize c ty pkt).1.stream_index = pkt.stream_index ∧
    (synthesize c ty pkt).1.pos = pkt.pos ∧
    (synthesize c ty pkt).2.next_apts = addU32 c.next_apts pkt.duration ∧
    (synthesize c ty pkt).2.next_vpts = c.next_vpts := by
  have _ := ha
  simp [synthesize, hv]

theorem C5_other_classes_use_audio_clock_witness :
    AVMediaType.DATA ≠ AVMediaType.VIDEO ∧ AVMediaType.DATA ≠ AVMediaType.AUDIO ∧
    (synthesize { next_vpts := 3, next_apts := 7 } AVMediaType.DATA (mkPacket 1 50 40 5)).1.pts
        = ((7 : Nat) : Int) ∧
    (synthesize { next_vpts := 3, next_apts := 7 } AVMediaType.DATA (mkPacket 1 50 40 5)).2.next_vpts
        = 3 :=
  ⟨by decide, by decide,
   (C5_other_classes_use_audio_clock { next_vpts := 3, next_apts := 7 } AVMediaType.DATA
      (mkPacket 1 50 40 5) (by decide) (by decide)).2.1,
   (C5_other_classes_use_audio_clock { next_vpts := 3, next_apts := 7 } AVMediaType.DATA
      (mkPacket 1 50 40 5) (by decide) (by decide)).2.2.2.2.2.2.2⟩

/-- C6, as the claim states it, fails: with the video counter at 0 a video
packet of duration -1 moves the counter to 4294967295, which is greater
than 0. -/
theorem C6_counterexample :
    (mkPacket 0 0 0 (-1)).duration ≤ 0 ∧
    clockFor AVMediaType.VIDEO { next_vpts := 0, next_apts := 0 } = 0 ∧
    clockFor AVMediaType.VIDEO
      (synthesize { next_vpts := 0, next_apts := 0 } AVMediaType.VIDEO (mkPacket 0 0 0 (-1))).2
        = 4294967295 ∧
    ¬ (clockFor AVMediaType.VIDEO
      (synthesize { next_vpts := 0, next_apts := 0 } AVMediaType.VIDEO (mkPacket 0 0 0 (-1))).2
        ≤ clockFor AVMediaType.VIDEO { next_vpts := 0, next_apts := 0 }) := by
  decide

/-- C6, amended: for a counter value c below 2^32 and a packet of that
counter's class with duration d ≤ 0 that does not take the counter below zero
(0 ≤ c + d), the counter after the step is c + d, hence not greater than c,
and it is c when d = 0. -/
theorem C6_nonpositive_duration_no_advance (c : Clocks) (ty : AVMediaType) (pkt : AVPacket)
    (hc : clockFor ty c < UINT32_MOD) (hd : pkt.duration ≤ 0)
    (hlow : 0 ≤ (clockFor ty c : Int) + pkt.duration) :
    (clockFor ty (synthesize c ty pkt).2 : Int) = (clockFor ty c : Int) + pkt.duration ∧
    clockFor ty (synthesize c ty pkt).2 ≤ clockFor ty c ∧
    (pkt.duration = 0 → clockFor ty (synthesize c ty pkt).2 = clockFor ty c) := by
  have key : (clockFor ty (synthesize c ty pkt).2 : Int)
      = (clockFor ty c : Int) + pkt.duration := by
    unfold UINT32_MOD at hc
    by_cases hv : ty = AVMediaType.VIDEO
    · simp only [clockFor, synthesize, hv, if_true] at hc hlow ⊢
      exact addU32_exact _ _ hlow (by omega)
    · simp only [clockFor, synthesize, hv, if_false] at hc hlow ⊢
      exact addU32_exact _ _ hlow (by omega)
  refine ⟨key, by omega, fun h0 => by omega⟩

theorem C6_nonpositive_duration_no_advance_witness :
    clockFor AVMediaType.AUDIO { next_vpts := 0, next_apts := 1024 } < UINT32_MOD ∧
    (mkPacket 1 0 0 (-24)).duration ≤ 0 ∧
    0 ≤ (clockFor AVMediaType.AUDIO { next_vpts := 0, next_apts := 1024 } : Int)
          + (mkPacket 1 0 0 (-24)).duration ∧
    clockFor AVMediaType.AUDIO
      (synthesize { next_vpts := 0, next_apts := 1024 } AVMediaType.AUDIO
        (mkPacket 1 0 0 (-24))).2
      ≤ clockFor AVMediaType.AUDIO { next_vpts := 0, next_apts := 1024 } :=
  ⟨by decide, by decide, by decide,
   (C6_nonpositive_duration_no_advance { next_vpts := 0, next_apts := 1024 } AVMediaType.AUDIO
      (mkPacket 1 0 0 (-24)) (by decide) (by decide) (by decide)).2.1⟩

/-! ## Rescaling (lines 184-186) -/

/-- The pass-through condition of the amended C7 cannot be dropped: whenever
the round trip stays within 1 of t, a pass-through value obtained in B is
itself within 1 of t. -/
theorem pass_through_condition_necessary (t : Int) (A B : AVRational)
    (h : |av_rescale_q_rnd (av_rescale_q_rnd t A B) B A - t| ≤ 1)
    (hu : av_rescale_q_rnd t A B = INT64_MIN ∨ av_rescale_q_rnd t A B = INT64_MAX) :
    |av_rescale_q_rnd t A B - t| ≤ 1 := by
  have e2 : av_rescale_q_rnd (av_rescale_q_rnd t A B) B A = av_rescale_q_rnd t A B := by
    generalize av_rescale_q_rnd t A B = u at hu
    unfold av_rescale_q_rnd
    exact if_pos hu
  rw [e2] at h
  exact h

theorem stamps_append (a b : List Event) : stamps (a ++ b) = stamps a ++ stamps b := by
  induction a with
  | nil => rfl
  | cons e a ih =>
    cases e <;> simp [stamps, ih]

theorem linked_append (c : Clocks) (a b : List Stamp) (ha : Linked c a)
    (hb : Linked (endClocks c a) b) : Linked c (a ++ b) := by
  induction a generalizing c with
  | nil => exact hb
  | cons s a ih =>
    obtain ⟨h1, h2, h3, h4, h5⟩ := ha
    exact ⟨h1, h2, h3, h4, ih s.after h5 hb⟩

theorem endClocks_append (c : Clocks) (a b : List Stamp) :
    endClocks c (a ++ b) = endClocks (endClocks c a) b := by
  induction a generalizing c with
  | nil => rfl
  | cons s a ih => exact ih s.after

theorem clockFor_eq_of (ty : AVMediaType) (c : Clocks) :
    clockFor ty c = Clocks.of (decide (ty = AVMediaType.VIDEO)) c := by
  by_cases h : ty = AVMediaType.VIDEO <;> simp [clockFor, Clocks.of, h]

/-- How lines 171-179 move the counter selected by `v`. -/
theorem synthesize_of (c : Clocks) (ty : AVMediaType) (pkt : AVPacket) (v : Bool) :
    Clocks.of v (synthesize c ty pkt).2
      = if (decide (ty = AVMediaType.VIDEO) == v) = true
          then addU32 (Clocks.of v c) pkt.duration else Clocks.of v c := by
  cases v <;> by_cases h : ty = AVMediaType.VIDEO <;> simp [synthesize, Clocks.of, h]

theorem synthesize_stamp (c : Clocks) (ty : AVMediaType) (pkt : AVPacket) :
    (synthesize c ty pkt).1.pts = (clockFor ty c : Int) ∧
    (synthesize c ty pkt).1.dts = (clockFor ty c : Int) ∧
    (synthesize c ty pkt).1.duration = pkt.duration ∧
    (synthesize c ty (synthesize c ty pkt).1).2 = (synthesize c ty pkt).2 := by
  by_cases h : ty = AVMediaType.VIDEO <;> simp [synthesize, clockFor, h]

/-- The stamps of one `while (1)` are linked from the counters it starts
with, and it leaves the counters of its last stamp. -/
theorem packetLoop_linked (i nbIn : Nat) (st : Nat → AVStream) (nbOut : Nat)
    (tb : Nat → AVRational) (reads : List ReadResult) (c : Clocks) :
    Linked c (stamps (packetLoop i nbIn st nbOut tb reads c).events) ∧
    (packetLoop i nbIn st nbOut tb reads c).clocks
      = endClocks c (stamps (packetLoop i nbIn st nbOut tb reads c).events) := by
  induction reads generalizing c with
  | nil => exact ⟨trivial, rfl⟩
  | cons r rest ih =>
    have hs := synthesize_stamp c (st r.pkt.stream_index).codec_type r.pkt
    by_cases h : r.ret < 0
    · rw [packetLoop_read_fail _ _ _ _ _ _ _ _ h]
      exact ⟨trivial, rfl⟩
    · rcases index_cases nbIn nbOut r.pkt.stream_index with hi | hi
      · by_cases hw : r.wret < 0
        · rw [packetLoop_write_fail _ _ _ _ _ _ _ _ h hi.1 hi.2 hw]
          exact ⟨⟨rfl, hs.1, hs.2.1, hs.2.2.2.symm, trivial⟩, rfl⟩
        · rw [packetLoop_ok _ _ _ _ _ _ _ _ h hi.1 hi.2 hw]
          have ih2 := ih (synthesize c (st r.pkt.stream_index).codec_type r.pkt).2
          exact ⟨⟨rfl, hs.1, hs.2.1, hs.2.2.2.symm, ih2.1⟩, ih2.2⟩
      · rw [packetLoop_stray _ _ _ _ _ _ _ _ h hi]
        exact ⟨trivial, rfl⟩

theorem copyLoop_linked (nbOut : Nat) (tb : Nat → AVRational) (fs : List InputFile) (i : Nat)
    (c : Clocks) (ret : Int) :
    Linked c (stamps (copyLoop nbOut tb fs i c ret).events) ∧
    (copyLoop nbOut tb fs i c ret).clocks
      = endClocks c (stamps (copyLoop nbOut tb fs i c ret).events) := by
  induction fs generalizing i c ret with
  | nil => exact ⟨trivial, rfl⟩
  | cons f fs ih =>
    have h1 := packetLoop_linked i f.nb_streams f.streams nbOut tb f.reads c
    cases hf : (packetLoop i f.nb_streams f.streams nbOut tb f.reads c).fault with
    | true =>
      rw [copyLoop_cons_fault _ _ _ _ _ _ _ hf]
      exact h1
    | false =>
      rw [copyLoop_cons _ _ _ _ _ _ _ hf]
      simp only [stamps_append, endClocks_append]
      have h2 := ih (i + 1) (packetLoop i f.nb_streams f.streams nbOut tb f.reads c).clocks
        (packetLoop i f.nb_streams f.streams nbOut tb f.reads c).ret
      refine ⟨linked_append c _ _ h1.1 ?_, ?_⟩
      · rw [← h1.2]
        exact h2.1
      · rw [← h1.2]
        exact h2.2

/-- The stamps of a run are those of its copy loop, started from (0, 0). -/
theorem main_stamps (argv : List String) (w : World) :
    stamps (main argv w).trace = [] ∨
    stamps (main argv w).trace
      = stamps (copyLoop (w.input 0).nb_streams w.outTimeBase (inputsOf w (argv.length - 2)) 0
          { next_vpts := 0, next_apts := 0 } w.headerRet).events := by
  by_cases h : argv.length < 4
  · left
    rw [main_usage argv w h]
    rfl
  · have h4 : 4 ≤ argv.length := by omega
    cases hfill : fillTables argv with
    | none =>
      left
      rw [main_fill_fault argv w h4 hfill]
      rfl
    | some t =>
      have hfs : (fillTables argv).isSome = true := by rw [hfill]; rfl
      cases hs : setup w (argv.length - 2) with
      | error ret =>
        left
        rw [main_setup_fail argv w h4 hfs ret hs]
        rfl
      | ok r =>
        by_cases hh : w.headerRet < 0
        · left
          rw [main_header_fail argv w h4 hfs r hs hh]
          rfl
        · right
          cases hf : (copyLoop (w.input 0).nb_streams w.outTimeBase
              (inputsOf w (argv.length - 2)) 0 { next_vpts := 0, next_apts := 0 }
              w.headerRet).fault with
          | true =>
            rw [main_copy_stray argv w h4 hfs r hs hh hf]
            simp [stamps]
          | false =>
            rw [main_copy argv w h4 hfs r hs hh hf]
            simp [stamps, stamps_append]

/-- In every run the stamps are linked from the counters (0, 0): the counters
are never reset, neither inside an input nor between inputs. -/
theorem main_stamps_linked (argv : List String) (w : World) :
    Linked { next_vpts := 0, next_apts := 0 } (stamps (main argv w).trace) := by
  rcases main_stamps argv w with h | h
  · rw [h]
    trivial
  · rw [h]
    exact (copyLoop_linked _ _ _ _ _ _).1

/-- Linked stamps, restricted to one counter, follow each other modulo 2^32,
and the first of them carries the starting value of that counter. -/
theorem linked_chain (v : Bool) (ss : List Stamp) (c : Clocks) (h : Linked c ss) :
    (∀ s ∈ (ss.filter (fun s => decide (s.ty = AVMediaType.VIDEO) == v)).head?,
      s.pkt.pts = (Clocks.of v c : Int) ∧ s.pkt.dts = (Clocks.of v c : Int)) ∧
    List.Chain' FollowsMod32 (ss.filter (fun s => decide (s.ty = AVMediaType.VIDEO) == v)) := by
  induction ss generalizing c with
  | nil => simp
  | cons s rest ih =>
    obtain ⟨_, hp, hd, ha, hl⟩ := h
    have ih2 := ih s.after hl
    have hof := synthesize_of c s.ty s.pkt v
    rw [← ha] at hof
    by_cases hsel : (decide (s.ty = AVMediaType.VIDEO) == v) = true
    · have hv : decide (s.ty = AVMediaType.VIDEO) = v := by simpa using hsel
      rw [if_pos hsel] at hof
      rw [clockFor_eq_of, hv] at hp hd
      rw [@List.filter_cons_of_pos Stamp (fun s => decide (s.ty = AVMediaType.VIDEO) == v) s rest hsel]
      refine ⟨?_, ?_⟩
      · intro x hx
        simp only [List.head?_cons, Option.mem_def, Option.some.injEq] at hx
        subst hx
        exact ⟨hp, hd⟩
      · rw [List.chain'_cons']
        refine ⟨?_, ih2.2⟩
        intro y hy
        have hy2 := ih2.1 y hy
        rw [hof, addU32_cast] at hy2
        unfold FollowsMod32
        rw [hp, hd]
        exact hy2
    · rw [if_neg hsel] at hof
      rw [@List.filter_cons_of_neg Stamp (fun s => decide (s.ty = AVMediaType.VIDEO) == v) s rest hsel]
      rw [hof] at ih2
      exact ih2

/-- C1, amended: in every run, for every two packets p and q that are
consecutive among the packets stamped from the same counter (the packets of
video streams use `next_vpts`; the packets of all other streams, audio or not,
use `next_apts`), across input boundaries, the pts and dts assigned to q equal
the timestamp assigned to p plus the declared duration of p, reduced modulo
2^32. -/
theorem C1_continuity_per_counter (argv : List String) (w : World) :
    ContinuityPerCounter (main argv w).trace := by
  intro v
  exact (linked_chain v _ _ (main_stamps_linked argv w)).2

/-- C1, as the claim states it, fails in the run `mixedWorld`.  The second
audio packet is stamped 1029, not 0 + 1024, because the subtitle packet read
between the two audio packets advanced the same counter by 5; and the third
video packet is stamped 1, not 4294967295 + 2, because the counter is a
`uint32_t`. -/
theorem C1_counterexample :
    (stamps (main twoInputs mixedWorld).trace).map (fun s => (s.ty, s.pkt.pts, s.pkt.dts, s.pkt.duration))
      = [(AVMediaType.AUDIO, 0, 0, 1024), (AVMediaType.SUBTITLE, 1024, 1024, 5),
         (AVMediaType.AUDIO, 1029, 1029, 1024), (AVMediaType.VIDEO, 0, 0, 4294967295),
         (AVMediaType.VIDEO, 4294967295, 4294967295, 2), (AVMediaType.VIDEO, 1, 1, 1)] ∧
    ¬ List.Chain' Follows
      ((stamps (main twoInputs mixedWorld).trace).filter (fun s => decide (s.ty = AVMediaType.VIDEO))) ∧
    ¬ List.Chain' Follows
      ((stamps (main twoInputs mixedWorld).trace).filter (fun s => decide (s.ty = AVMediaType.AUDIO))) ∧
    ¬ Continuity (main twoInputs mixedWorld).trace := by
  have hv : ¬ List.Chain' Follows
      ((stamps (main twoInputs mixedWorld).trace).filter
        (fun s => decide (s.ty = AVMediaType.VIDEO))) := by
    have hl : (stamps (main twoInputs mixedWorld).trace).filter
        (fun s => decide (s.ty = AVMediaType.VIDEO))
        = [{ ty := AVMediaType.VIDEO
             before := { next_vpts := 0, next_apts := 2053 }
             after := { next_vpts := 4294967295, next_apts := 2053 }
             pkt := { stream_index := 0, pts := 0, dts := 0, duration := 4294967295, pos := 0 } },
           { ty := AVMediaType.VIDEO
             before := { next_vpts := 4294967295, next_apts := 2053 }
             after := { next_vpts := 1, next_apts := 2053 }
             pkt := { stream_index := 0, pts := 4294967295, dts := 4294967295, duration := 2,
                      pos := 0 } },
           { ty := AVMediaType.VIDEO
             before := { next_vpts := 1, next_apts := 2053 }
             after := { next_vpts := 2, next_apts := 2053 }
             pkt := { stream_index := 0, pts := 1, dts := 1, duration := 1, pos := 0 } }] := by
      decide
    rw [hl]
    intro h
    have h2 := (List.chain'_cons.mp (List.chain'_cons.mp h).2).1
    exact absurd h2 (by decide)
  have ha : ¬ List.Chain' Follows
      ((stamps (main twoInputs mixedWorld).trace).filter
        (fun s => decide (s.ty = AVMediaType.AUDIO))) := by
    have hl : (stamps (main twoInputs mixedWorld).trace).filter
        (fun s => decide (s.ty = AVMediaType.AUDIO))
        = [{ ty := AVMediaType.AUDIO
             before := { next_vpts := 0, next_apts := 0 }
             after := { next_vpts := 0, next_apts := 1024 }
             pkt := { stream_index := 1, pts := 0, dts := 0, duration := 1024, pos := 0 } },
           { ty := AVMediaType.AUDIO
             before := { next_vpts := 0, next_apts := 1029 }
             after := { next_vpts := 0, next_apts := 2053 }
             pkt := { stream_index := 1, pts := 1029, dts := 1029, duration := 1024,
                      pos := 0 } }] := by
      decide
    rw [hl]
    intro h
    have h2 := (List.chain'_cons.mp h).1
    exact absurd h2 (by decide)
  exact ⟨by decide, hv, ha, fun h => hv h.1⟩

/-! ## Monotonicity of the counters -/

theorem classDuration_nonneg (st : Nat → AVStream) (v : Bool) (reads : List ReadResult)
    (hd : ∀ r ∈ reads, 0 ≤ r.pkt.duration) : 0 ≤ classDuration st v reads := by
  induction reads with
  | nil => exact le_refl 0
  | cons r rest ih =>
    have h1 := hd r (by simp)
    have h2 := ih (fun x hx => hd x (by simp [hx]))
    unfold classDuration
    split <;> omega

theorem totalDuration_nonneg (v : Bool) (fs : List InputFile) (hd : DurationsNonneg fs) :
    0 ≤ totalDuration v fs := by
  induction fs with
  | nil => exact le_refl 0
  | cons f fs ih =>
    have h1 := classDuration_nonneg f.streams v f.reads (hd f (by simp))
    have h2 := ih (fun g hg => hd g (by simp [hg]))
    unfold totalDuration
    omega

/-- One step below the wrap: with a non-negative duration and
counter + duration < 2^32, the counter selected by `v` does not go down and
grows by at most the duration counted for `v`. -/
theorem synthesize_monotone (c : Clocks) (ty : AVMediaType) (pkt : AVPacket) (v : Bool)
    (hd : 0 ≤ pkt.duration)
    (hb : (Clocks.of v c : Int)
      + (if (decide (ty = AVMediaType.VIDEO) == v) = true then pkt.duration else 0)
      < 4294967296) :
    (Clocks.of v (synthesize c ty pkt).2 : Int)
      = (Clocks.of v c : Int)
        + (if (decide (ty = AVMediaType.VIDEO) == v) = true then pkt.duration else 0) := by
  rw [synthesize_of]
  by_cases hsel : (decide (ty = AVMediaType.VIDEO) == v) = true
  · rw [if_pos hsel] at hb ⊢
    rw [if_pos hsel]
    exact addU32_exact _ _ (by omega) hb
  · rw [if_neg hsel, if_neg hsel]
    omega

theorem packetLoop_monotone (i nbIn : Nat) (st : Nat → AVStream) (nbOut : Nat)
    (tb : Nat → AVRational) (reads : List ReadResult) (c : Clocks)
    (hd : ∀ r ∈ reads, 0 ≤ r.pkt.duration)
    (hb : ∀ v, (Clocks.of v c : Int) + classDuration st v reads < 4294967296) :
    (∀ s ∈ stamps (packetLoop i nbIn st nbOut tb reads c).events,
      ∀ v, Clocks.of v s.before ≤ Clocks.of v s.after) ∧
    ∀ v, Clocks.of v c ≤ Clocks.of v (packetLoop i nbIn st nbOut tb reads c).clocks ∧
      (Clocks.of v (packetLoop i nbIn st nbOut tb reads c).clocks : Int)
        ≤ (Clocks.of v c : Int) + classDuration st v reads := by
  induction reads generalizing c with
  | nil =>
    refine ⟨?_, fun v => ⟨le_refl _, ?_⟩⟩
    · intro s hs
      simp [packetLoop_nil, stamps] at hs
    · simp [packetLoop_nil, classDuration]
  | cons r rest ih =>
    have hrest : ∀ x ∈ rest, 0 ≤ x.pkt.duration := fun x hx => hd x (by simp [hx])
    have hr : 0 ≤ r.pkt.duration := hd r (by simp)
    have hnn : ∀ v, 0 ≤ classDuration st v rest := fun v => classDuration_nonneg st v rest hrest
    have hstep : ∀ v, (Clocks.of v (synthesize c (st r.pkt.stream_index).codec_type r.pkt).2 : Int)
        = (Clocks.of v c : Int)
          + (if (decide ((st r.pkt.stream_index).codec_type = AVMediaType.VIDEO) == v) = true
              then r.pkt.duration else 0) := by
      intro v
      apply synthesize_monotone c _ r.pkt v hr
      have h1 := hb v
      have h2 := hnn v
      unfold classDuration at h1
      omega
    have hsum : ∀ v, classDuration st v (r :: rest)
        = (if (decide ((st r.pkt.stream_index).codec_type = AVMediaType.VIDEO) == v) = true
              then r.pkt.duration else 0) + classDuration st v rest := fun v => rfl
    have hinc : ∀ v, 0 ≤ (if (decide ((st r.pkt.stream_index).codec_type = AVMediaType.VIDEO)
        == v) = true then r.pkt.duration else 0) := by
      intro v
      split <;> omega
    have hstop : (∀ s ∈ stamps [Event.read i r.ret],
          ∀ v, Clocks.of v s.before ≤ Clocks.of v s.after) ∧
        ∀ v, Clocks.of v c ≤ Clocks.of v c ∧
          (Clocks.of v c : Int) ≤ (Clocks.of v c : Int) + classDuration st v (r :: rest) := by
      refine ⟨?_, fun v => ⟨le_refl _, ?_⟩⟩
      · intro s hs
        simp [stamps] at hs
      · have h1 := hsum v
        have h2 := hnn v
        have h3 := hinc v
        omega
    by_cases h : r.ret < 0
    · rw [packetLoop_read_fail _ _ _ _ _ _ _ _ h]
      exact hstop
    · rcases index_cases nbIn nbOut r.pkt.stream_index with hi | hi
      · by_cases hw : r.wret < 0
        · rw [packetLoop_write_fail _ _ _ _ _ _ _ _ h hi.1 hi.2 hw]
          refine ⟨?_, fun v => ?_⟩
          · intro s hs
            simp only [stamps, List.mem_singleton] at hs
            subst hs
            intro v
            have h1 := hstep v
            have h3 := hinc v
            show Clocks.of v c ≤ Clocks.of v (synthesize c _ r.pkt).2
            omega
          · have h1 := hstep v
            have h2 := hnn v
            have h3 := hinc v
            have h4 := hsum v
            show Clocks.of v c ≤ Clocks.of v (synthesize c _ r.pkt).2 ∧
              (Clocks.of v (synthesize c _ r.pkt).2 : Int) ≤ _
            omega
        · rw [packetLoop_ok _ _ _ _ _ _ _ _ h hi.1 hi.2 hw]
          have ih2 := ih (synthesize c (st r.pkt.stream_index).codec_type r.pkt).2 hrest (by
            intro v
            have h1 := hstep v
            have h4 := hsum v
            have h5 := hb v
            omega)
          refine ⟨?_, fun v => ?_⟩
          · intro s hs
            simp only [stamps, List.cons_append, List.nil_append, List.mem_cons] at hs
            rcases hs with hs | hs
            · subst hs
              intro v
              have h1 := hstep v
              have h3 := hinc v
              show Clocks.of v c ≤ Clocks.of v (synthesize c _ r.pkt).2
              omega
            · exact ih2.1 s hs
          · have h1 := hstep v
            have h3 := hinc v
            have h4 := hsum v
            have h6 := ih2.2 v
            show Clocks.of v c ≤ Clocks.of v (packetLoop i nbIn st nbOut tb rest _).clocks ∧
              (Clocks.of v (packetLoop i nbIn st nbOut tb rest _).clocks : Int) ≤ _
            omega
      · rw [packetLoop_stray _ _ _ _ _ _ _ _ h hi]
        exact hstop

theorem copyLoop_monotone (nbOut : Nat) (tb : Nat → AVRational) (fs : List InputFile)
    (i : Nat) (c : Clocks) (ret : Int) (hd : DurationsNonneg fs)
    (hb : ∀ v, (Clocks.of v c : Int) + totalDuration v fs < 4294967296) :
    ∀ s ∈ stamps (copyLoop nbOut tb fs i c ret).events,
      ∀ v, Clocks.of v s.before ≤ Clocks.of v s.after := by
  induction fs generalizing i c ret with
  | nil =>
    intro s hs
    simp [copyLoop_nil, stamps] at hs
  | cons f fs ih =>
    have hrest : DurationsNonneg fs := fun g hg => hd g (by simp [hg])
    have hnn : ∀ v, 0 ≤ totalDuration v fs := fun v => totalDuration_nonneg v fs hrest
    have hsum : ∀ v, totalDuration v (f :: fs)
        = classDuration f.streams v f.reads + totalDuration v fs := fun v => rfl
    have h1 := packetLoop_monotone i f.nb_streams f.streams nbOut tb f.reads c
      (hd f (by simp)) (by
      intro v
      have := hb v
      have := hnn v
      have := hsum v
      omega)
    intro s hs
    cases hf : (packetLoop i f.nb_streams f.streams nbOut tb f.reads c).fault with
    | true =>
      rw [copyLoop_cons_fault _ _ _ _ _ _ _ hf] at hs
      exact h1.1 s hs
    | false =>
      rw [copyLoop_cons _ _ _ _ _ _ _ hf] at hs
      simp only [stamps_append, List.mem_append] at hs
      rcases hs with hs | hs
      · exact h1.1 s hs
      · refine ih (i + 1) _ _ hrest ?_ s hs
        intro v
        have := hb v
        have := hsum v
        have := (h1.2 v).2
        omega

/-- C2, as the claim states it, fails in the run `wrapWorld`: both durations
are non-negative, yet the second video packet takes `next_vpts` from
4294967295 to 0. -/
theorem C2_counterexample :
    DurationsNonneg (inputsOf wrapWorld (twoInputs.length - 2)) ∧
    (stamps (main twoInputs wrapWorld).trace).map (fun s => (s.before.next_vpts, s.after.next_vpts))
      = [(0, 4294967295), (4294967295, 0)] ∧
    ¬ ClocksNeverDecrease (main twoInputs wrapWorld).trace := by
  refine ⟨?_, by decide, ?_⟩
  · intro f hf r hr
    have hf2 : f = wrapWorld.input 0 ∨ f = wrapWorld.input 1 := by
      simpa [inputsOf, twoInputs, List.range_succ] using hf
    rcases hf2 with hf2 | hf2
    · subst hf2
      have hr2 : r = frame (mkPacket 0 0 0 4294967295) 0 := by
        simpa [wrapWorld, sampleWorld, sampleFile] using hr
      subst hr2
      decide
    · subst hf2
      have hr2 : r = frame (mkPacket 0 0 0 1) 0 := by
        simpa [wrapWorld, sampleWorld, sampleFile] using hr
      subst hr2
      decide
  · intro h
    have h2 := h { ty := AVMediaType.VIDEO
                   before := { next_vpts := 4294967295, next_apts := 0 }
                   after := { next_vpts := 0, next_apts := 0 }
                   pkt := { stream_index := 0, pts := 4294967295, dts := 4294967295,
                            duration := 1, pos := 0 } } (by decide)
    exact absurd h2.1 (by decide)

/-- C2, amended: in every run in which every packet's declared duration is
non-negative and, for each of the two counters, the durations of the packets
that use it add up to less than 2^32 over all inputs, the value of each
counter after processing a packet is greater than or equal to its value
before, at every step of the run. -/
theorem C2_counters_monotone_below_wrap (argv : List String) (w : World)
    (hdur : DurationsNonneg (inputsOf w (argv.length - 2)))
    (hvideo : totalDuration true (inputsOf w (argv.length - 2)) < 4294967296)
    (hother : totalDuration false (inputsOf w (argv.length - 2)) < 4294967296) :
    ClocksNeverDecrease (main argv w).trace := by
  intro s hs
  rcases main_stamps argv w with h | h
  · rw [h] at hs
    simp at hs
  · rw [h] at hs
    have hm := copyLoop_monotone (w.input 0).nb_streams w.outTimeBase
      (inputsOf w (argv.length - 2)) 0
      { next_vpts := 0, next_apts := 0 } w.headerRet hdur (by
        intro v
        cases v
        · simpa [Clocks.of] using hother
        · simpa [Clocks.of] using hvideo) s hs
    exact ⟨hm true, hm false⟩

theorem C2_counters_monotone_below_wrap_witness :
    DurationsNonneg (inputsOf scenarioWorld (twoInputs.length - 2)) ∧
    totalDuration true (inputsOf scenarioWorld (twoInputs.length - 2)) = 10 ∧
    totalDuration false (inputsOf scenarioWorld (twoInputs.length - 2)) = 10240 ∧
    ClocksNeverDecrease (main twoInputs scenarioWorld).trace :=
  ⟨by unfold DurationsNonneg; decide, by decide, by decide,
   C2_counters_monotone_below_wrap twoInputs scenarioWorld (by unfold DurationsNonneg; decide)
     (by decide) (by decide)⟩

/-- The scenario of two inputs with five video packets of duration 1 and five
audio packets of duration 1024 each: the video packets are stamped 0, 1, ..., 9
and the audio packets 0, 1024, ..., 9216, whatever timestamps they carried. -/
theorem scenario_timestamps :
    ((stamps (main twoInputs scenarioWorld).trace).filter
        (fun s => decide (s.ty = AVMediaType.VIDEO))).map (fun s => s.pkt.pts)
      = [0, 1, 2, 3, 4, 5, 6, 7, 8, 9] ∧
    ((stamps (main twoInputs scenarioWorld).trace).filter
        (fun s => decide (s.ty = AVMediaType.AUDIO))).map (fun s => s.pkt.pts)
      = [0, 1024, 2048, 3072, 4096, 5120, 6144, 7168, 8192, 9216] ∧
    (main twoInputs scenarioWorld).exit = some 0 := by
  decide

/-! ## The properties on concrete runs -/

theorem C1_continuity_per_counter_witness :
    ((stamps (main twoInputs mixedWorld).trace).filter
        (fun s => decide (s.ty = AVMediaType.VIDEO) == false)).map (fun s => s.pkt.pts)
      = [0, 1024, 1029] ∧
    List.Chain' FollowsMod32
      ((stamps (main twoInputs mixedWorld).trace).filter
        (fun s => decide (s.ty = AVMediaType.VIDEO) == false)) :=
  ⟨by decide, C1_continuity_per_counter twoInputs mixedWorld false⟩

/-- In every run the first packet stamped from a counter gets timestamp 0. -/
theorem first_timestamp_zero (argv : List String) (w : World) (v : Bool) :
    ∀ s ∈ ((stamps (main argv w).trace).filter
        (fun s => decide (s.ty = AVMediaType.VIDEO) == v)).head?,
      s.pkt.pts = 0 ∧ s.pkt.dts = 0 := by
  intro s hs
  have h := (linked_chain v _ _ (main_stamps_linked argv w)).1 s hs
  cases v <;> simpa [Clocks.of] using h

/-! ## Every way setup can fail -/

theorem openInputs_error (fs : List InputFile) (r0 ret : Int)
    (h : openInputs fs r0 = Except.error ret) :
    ∃ f ∈ fs, (ret = f.openRet ∨ ret = f.probeRet) ∧ ret < 0 := by
  induction fs generalizing r0 with
  | nil => simp [openInputs] at h
  | cons f fs ih =>
    by_cases ho : f.openRet < 0
    · simp only [openInputs, ho, if_true, Except.error.injEq] at h
      exact ⟨f, by simp, Or.inl h.symm, by omega⟩
    · by_cases hp : f.probeRet < 0
      · simp only [openInputs, ho, hp, if_true, if_false, Except.error.injEq] at h
        exact ⟨f, by simp, Or.inr h.symm, by omega⟩
      · simp only [openInputs, ho, hp, if_false] at h
        obtain ⟨g, hg, hret⟩ := ih _ h
        exact ⟨g, by simp [hg], hret⟩

theorem buildSchema_error (w : World) (l : List Nat) (r ret : Int)
    (h : buildSchema w l r = Except.error ret) :
    (∃ i ∈ l, w.newStreamOk i = false ∧ ret = AVERROR_UNKNOWN) ∨
    (∃ i ∈ l, w.copyRet i < 0 ∧ ret = r) := by
  induction l with
  | nil => simp [buildSchema] at h
  | cons i rest ih =>
    cases ha : w.newStreamOk i with
    | false =>
      simp only [buildSchema, ha, if_true, Except.error.injEq] at h
      exact Or.inl ⟨i, by simp, ha, h.symm⟩
    | true =>
      by_cases hc : w.copyRet i < 0
      · simp only [buildSchema, ha, hc, if_true, if_false, Bool.true_eq_false,
          Except.error.injEq] at h
        exact Or.inr ⟨i, by simp, hc, h.symm⟩
      · simp only [buildSchema, ha, hc, if_false, Bool.true_eq_false] at h
        rcases ih h with ⟨j, hj, hret⟩ | ⟨j, hj, hret⟩
        · exact Or.inl ⟨j, by simp [hj], hret⟩
        · exact Or.inr ⟨j, by simp [hj], hret⟩

/-- The value of `ret` with which setup jumps to `end`: the negative result of
the failing open, probe or `avio_open` call, `AVERROR_UNKNOWN` for a missing
output context or output stream, and a non-negative left-over value when
`avcodec_copy_context` failed. -/
theorem setup_error_cases (w : World) (n : Nat) (ret : Int)
    (h : setup w n = Except.error ret) :
    (∃ i, i < n ∧ (ret = (w.input i).openRet ∨ ret = (w.input i).probeRet) ∧ ret < 0) ∨
    (w.outCtxOk = false ∧ ret = AVERROR_UNKNOWN) ∨
    (∃ i, i < (w.input 0).nb_streams ∧ w.newStreamOk i = false ∧ ret = AVERROR_UNKNOWN) ∨
    (∃ i, i < (w.input 0).nb_streams ∧ w.copyRet i < 0 ∧ 0 ≤ ret) ∨
    (w.nofile = false ∧ ret = w.avioRet ∧ ret < 0) := by
  unfold setup at h
  cases ho : openInputs (inputsOf w n) 0 with
  | error e =>
    rw [ho] at h
    simp only [Except.error.injEq] at h
    subst h
    obtain ⟨f, hf, hret⟩ := openInputs_error _ _ _ ho
    simp only [inputsOf, List.mem_map, List.mem_range] at hf
    obtain ⟨i, hi, rfl⟩ := hf
    exact Or.inl ⟨i, hi, hret⟩
  | ok r =>
    rw [ho] at h
    have hr0 : 0 ≤ r := openInputs_ok_nonneg _ 0 r (le_refl 0) ho
    cases hctx : w.outCtxOk with
    | false =>
      simp only [hctx, if_true, Except.error.injEq] at h
      exact Or.inr (Or.inl ⟨rfl, h.symm⟩)
    | true =>
      simp only [hctx, if_false, Bool.true_eq_false] at h
      cases hb : buildSchema w (List.range (w.input 0).nb_streams) r with
      | error e =>
        rw [hb] at h
        simp only [Except.error.injEq] at h
        subst h
        rcases buildSchema_error _ _ _ _ hb with ⟨i, hi, ha, hret⟩ | ⟨i, hi, hc, hret⟩
        · exact Or.inr (Or.inr (Or.inl ⟨i, List.mem_range.mp hi, ha, hret⟩))
        · exact Or.inr (Or.inr (Or.inr (Or.inl ⟨i, List.mem_range.mp hi, hc, by omega⟩)))
      | ok r2 =>
        rw [hb] at h
        unfold openOutput at h
        cases hn : w.nofile with
        | true => simp [hn] at h
        | false =>
          by_cases hav : w.avioRet < 0
          · simp only [hn, hav, if_true, if_false, Bool.false_eq_true,
              Except.error.injEq] at h
            exact Or.inr (Or.inr (Or.inr (Or.inr ⟨rfl, h.symm, by omega⟩)))
          · simp [hn, hav] at h

/-- The exit code of a run that fails in setup: 1 exactly when the value of
`ret` at `end` is negative and not `AVERROR_EOF`. -/
theorem setup_failure_exit_code (argv : List String) (w : World) (hmin : 4 ≤ argv.length)
    (hfill : (fillTables argv).isSome = true) (ret : Int)
    (h : setup w (argv.length - 2) = Except.error ret) :
    ((main argv w).exit = some 1 ↔ ret < 0 ∧ ret ≠ AVERROR_EOF) ∧ (main argv w).trace = [] := by
  rw [main_setup_fail argv w hmin hfill ret h]
  refine ⟨?_, rfl⟩
  show some (exitCode ret) = some 1 ↔ _
  rw [Option.some.injEq, exitCode_one_iff]
  constructor
  · intro hn
    exact ⟨by
      by_contra hge
      exact hn (Or.inr (by omega)), fun he => hn (Or.inl he)⟩
  · rintro ⟨hneg, hne⟩ (he | hge)
    · exact hne he
    · omega

end Merger
